import Mathlib

/-!
Verification development for the launchpad ticket-lottery contract
(`src/launchpad/src/launchpad.rs` and the guaranteed-tickets extension).

The contract storage is embedded as an explicit record of storage mappers;
addresses and token identifiers are numbers, BigUint amounts are `Nat`.
Endpoints become pure functions `... → Except String Storage`: a returned
`.error` models the atomic transaction rejection of `require!`, leaving the
caller's state unchanged by construction.  Modules of the crate that are not
present under `src/` (random.rs, ongoing_operation.rs, launch_stage.rs,
setup.rs, and the guaranteed-tickets contract) are modelled from the
specification, as marked on the individual definitions.
-/

namespace Launchpad

/-- First ticket id constant, from `const FIRST_TICKET_ID: usize = 1`. -/
def FIRST_TICKET_ID : Nat := 1

/-- Winning status constant, from `const WINNING_TICKET: TicketStatus = true`. -/
def WINNING_TICKET : Bool := true

/-- Inclusive range of ticket ids owned by one address, from `struct TicketRange`. -/
structure TicketRange where
  first_id : Nat
  last_id : Nat
deriving DecidableEq

/-- Batch of tickets keyed by its first ticket id, from `struct TicketBatch`. -/
structure TicketBatch where
  address : Nat
  nr_tickets : Nat
deriving DecidableEq

/-- Launch stage flags, fields exactly as used in launchpad.rs
(module launch_stage is not under src/, but the field set is visible in `init`). -/
structure Flags where
  were_tickets_filtered : Bool
  were_winners_selected : Bool
  has_winner_selection_process_started : Bool
deriving DecidableEq

/-- Modelled from the spec: the deterministic PRNG of module random.rs, which is
not under src/.  Section 4.2 requires a seeded generator producing successive
pseudo-random values with fully serializable state (seed-state plus stream
index); the byte stream derived from the seed is abstracted as a function from
stream index to value. -/
structure Rng where
  seed : Nat → Nat
  index : Nat

/-- Modelled from the spec: `next_usize_in_range` reduces the next stream value
into the half-open range `[low, highEx)` and advances the stream index
(section 4.2; `low = highEx` is a caller precondition violation there, the
model then returns `low`). -/
def Rng.next_usize_in_range (r : Rng) (low highEx : Nat) : Nat × Rng :=
  (low + r.seed r.index % (highEx - low), ⟨r.seed, r.index + 1⟩)

/-- Modelled from the spec: the persisted operation checkpoint of module
ongoing_operation.rs (not under src/): a tagged union over no-operation,
filtering in progress and winner selection in progress, each carrying exactly
the cursor state passed to `save_progress` in launchpad.rs. -/
inductive OngoingOperationType where
  | noOp : OngoingOperationType
  | filterTicketsOp (first_ticket_id_in_batch : Nat) (nr_removed : Nat) : OngoingOperationType
  | selectWinnersOp (rng : Rng) (ticket_position : Nat) : OngoingOperationType

/-- Pointwise update of a map modelled as a function (storage mapper write;
writing `none` models `.clear()`). -/
def updF {α : Type} (f : Nat → α) (k : Nat) (v : α) : Nat → α :=
  fun x => if x = k then v else f x

/-- The contract storage, one field per storage mapper of launchpad.rs.
`ticketStatus` is `Option Bool` so that a cleared entry (absent, reads as
`false`) is distinguishable from a stored `false`; `ticketPosToId` defaults to
`0` meaning identity; `sends` accumulates outgoing transfers
`(receiver, tokenId, amount)` issued through `self.send().direct`. -/
structure Storage where
  lastTicketId : Nat
  ticketBatch : Nat → Option TicketBatch
  ticketRangeForAddress : Nat → Option TicketRange
  nrConfirmedTickets : Nat → Nat
  ticketStatus : Nat → Option Bool
  ticketPosToId : Nat → Nat
  nrWinningTickets : Nat
  blacklist : Nat → Bool
  claimList : Nat → Bool
  flags : Flags
  ongoingOp : OngoingOperationType
  ticketPriceToken : Nat
  ticketPriceAmount : Nat
  launchpadTokenId : Nat
  launchpadTokensPerWinningTicket : Nat
  claimableTicketPayment : Nat
  launchpadTokensDeposited : Bool
  supportAddress : Nat
  sends : List (Nat × Nat × Nat)

/-- Invocation context: caller, owner, the boolean period predicates exposed by
the period-gating collaborator (spec section 6; module launch_stage is not
under src/), and the attached payment of a payable call. -/
structure Ctx where
  caller : Nat
  owner : Nat
  addTicketsPeriodOpen : Bool
  confirmationPeriodOpen : Bool
  winnerSelectionPeriodOpen : Bool
  claimPeriodOpen : Bool
  beforeWinnerSelection : Bool
  paymentToken : Nat
  paymentAmount : Nat

/-- Reading a ticket status mapper: absent reads as the default `false`. -/
def statusRead (stg : Storage) (i : Nat) : Bool :=
  (stg.ticketStatus i).getD false

/-- From `get_ticket_id_from_pos`: a zero (absent) overlay entry resolves a
position to itself. -/
def get_ticket_id_from_pos (stg : Storage) (ticket_pos : Nat) : Nat :=
  let ticket_id := stg.ticketPosToId ticket_pos
  if ticket_id = 0 then ticket_pos else ticket_id

/-- From `get_total_number_of_tickets_for_address`: the size of the address's
range, `0` when the range mapper is empty. -/
def get_total_number_of_tickets_for_address (stg : Storage) (address : Nat) : Nat :=
  match stg.ticketRangeForAddress address with
  | none => 0
  | some tr => tr.last_id - tr.first_id + 1

/-- From `refund_ticket_payment`: send back `nr_tickets_to_refund` times the
ticket price in the payment token; nothing is sent for zero tickets. -/
def refund_ticket_payment (address nr_tickets_to_refund : Nat) (stg : Storage) : Storage :=
  if nr_tickets_to_refund = 0 then stg
  else
    { stg with
      sends := stg.sends ++
        [(address, stg.ticketPriceToken, stg.ticketPriceAmount * nr_tickets_to_refund)] }

/-- From `send_launchpad_tokens`: send the launchpad tokens for the claimed
winning tickets; nothing is sent for zero tickets. -/
def send_launchpad_tokens (address nr_claimed_tickets : Nat) (stg : Storage) : Storage :=
  if nr_claimed_tickets = 0 then stg
  else
    { stg with
      sends := stg.sends ++
        [(address, stg.launchpadTokenId,
          nr_claimed_tickets * stg.launchpadTokensPerWinningTicket)] }

/-- From `confirm_tickets` (launchpad.rs lines 156-190), checks in source
order: confirmation period, tokens deposited, blacklist, ticket count bound,
payment token, payment amount. -/
def confirm_tickets (ctx : Ctx) (nr_tickets_to_confirm : Nat) (stg : Storage) :
    Except String Storage :=
  if ¬ctx.confirmationPeriodOpen then .error "Not in confirmation period"
  else if ¬stg.launchpadTokensDeposited then .error "Launchpad tokens not deposited yet"
  else if stg.blacklist ctx.caller then
    .error "You have been put into the blacklist and may not confirm tickets"
  else
    let total_tickets := get_total_number_of_tickets_for_address stg ctx.caller
    let nr_confirmed := stg.nrConfirmedTickets ctx.caller
    let total_confirmed := nr_confirmed + nr_tickets_to_confirm
    if ¬(total_confirmed ≤ total_tickets) then .error "Trying to confirm too many tickets"
    else if ¬(ctx.paymentToken = stg.ticketPriceToken) then .error "Wrong payment token used"
    else if ¬(ctx.paymentAmount = stg.ticketPriceAmount * nr_tickets_to_confirm) then
      .error "Wrong amount sent"
    else
      .ok { stg with
            nrConfirmedTickets := updF stg.nrConfirmedTickets ctx.caller total_confirmed }

/-- Body of the `add_users_to_blacklist` loop for one address: refund and reset
a nonzero confirmed count, then add the address to the blacklist. -/
def blacklistOne (stg : Storage) (address : Nat) : Storage :=
  let nr_confirmed_tickets := stg.nrConfirmedTickets address
  let stg1 :=
    if 0 < nr_confirmed_tickets then
      let stg0 := refund_ticket_payment address nr_confirmed_tickets stg
      { stg0 with nrConfirmedTickets := updF stg0.nrConfirmedTickets address 0 }
    else stg
  { stg1 with blacklist := updF stg1.blacklist address true }

/-- From `add_users_to_blacklist` (launchpad.rs lines 106-122). -/
def add_users_to_blacklist (ctx : Ctx) (users_list : List Nat) (stg : Storage) :
    Except String Storage :=
  if ¬(ctx.caller = ctx.owner ∨ ctx.caller = stg.supportAddress) then .error "Permission denied"
  else if ¬ctx.beforeWinnerSelection then .error "Not in add tickets or confirm period"
  else .ok (users_list.foldl blacklistOne stg)

/-- From `try_create_tickets` (launchpad.rs lines 416-433). -/
def try_create_tickets (buyer nr_tickets : Nat) (stg : Storage) : Except String Storage :=
  match stg.ticketRangeForAddress buyer with
  | some _ => .error "Duplicate entry for user"
  | none =>
    let first_ticket_id := stg.lastTicketId + 1
    let last_ticket_id := first_ticket_id + nr_tickets - 1
    .ok { stg with
          ticketRangeForAddress :=
            updF stg.ticketRangeForAddress buyer (some ⟨first_ticket_id, last_ticket_id⟩),
          ticketBatch := updF stg.ticketBatch first_ticket_id (some ⟨buyer, nr_tickets⟩),
          lastTicketId := last_ticket_id }

/-- From `add_tickets` for a single address-count pair (owner only, during the
add-tickets period). -/
def add_tickets_one (ctx : Ctx) (buyer nr_tickets : Nat) (stg : Storage) :
    Except String Storage :=
  if ¬(ctx.caller = ctx.owner) then .error "Endpoint can only be called by owner"
  else if ¬ctx.addTicketsPeriodOpen then .error "Add tickets period has passed"
  else try_create_tickets buyer nr_tickets stg

/-- Modelled from the spec: the driver `run_while_it_has_gas` of module
ongoing_operation.rs (not under src/).  Section 4.1: the budget is checked
before each unit of work, a unit returning stop completes the operation, an
exhausted budget interrupts it; the budget is abstracted as the number of
remaining units.  Returns the final state and whether the operation completed. -/
def run_while_it_has_gas {σ : Type} (step : σ → σ × Bool) : Nat → σ → σ × Bool
  | 0, s => (s, false)
  | g + 1, s =>
    let r := step s
    if r.2 then (r.1, true) else run_while_it_has_gas step g r.1

/-- State threaded through the `filter_tickets` closure: the loop-local
variables plus the storage it mutates. -/
structure FilterLoopState where
  first_ticket_id_in_batch : Nat
  nr_removed : Nat
  stg : Storage

/-- One unit of work of the `filter_tickets` loop (launchpad.rs lines 207-241):
drop the batch of a blacklisted or fully-unconfirmed address, rewrite a batch
that shrank or must move down by the removed count, advance the cursor, and
stop after the batch ending at the captured `last_ticket_id`. -/
def filterUnit (last_ticket_id : Nat) (s : FilterLoopState) : FilterLoopState × Bool :=
  let ticket_batch := (s.stg.ticketBatch s.first_ticket_id_in_batch).getD ⟨0, 0⟩
  let address := ticket_batch.address
  let nr_tickets_in_batch := ticket_batch.nr_tickets
  let nr_confirmed_tickets := s.stg.nrConfirmedTickets address
  let stg1 :=
    if s.stg.blacklist address ∨ nr_confirmed_tickets = 0 then
      { s.stg with
        ticketRangeForAddress := updF s.stg.ticketRangeForAddress address none,
        ticketBatch := updF s.stg.ticketBatch s.first_ticket_id_in_batch none }
    else if 0 < s.nr_removed ∨ nr_confirmed_tickets < nr_tickets_in_batch then
      let new_first_id := s.first_ticket_id_in_batch - s.nr_removed
      let new_last_id := new_first_id + nr_confirmed_tickets - 1
      let clearedBatch := updF s.stg.ticketBatch s.first_ticket_id_in_batch none
      { s.stg with
        ticketRangeForAddress :=
          updF s.stg.ticketRangeForAddress address (some ⟨new_first_id, new_last_id⟩),
        ticketBatch := updF clearedBatch new_first_id (some ⟨address, nr_confirmed_tickets⟩) }
    else s.stg
  let nr_removed' := s.nr_removed + (nr_tickets_in_batch - nr_confirmed_tickets)
  let first' := s.first_ticket_id_in_batch + nr_tickets_in_batch
  (⟨first', nr_removed', stg1⟩, first' = last_ticket_id + 1)

/-- Modelled from the spec: `load_filter_tickets_operation` of module
ongoing_operation.rs (not under src/): no checkpoint starts fresh at
FIRST_TICKET_ID, a filtering checkpoint resumes its cursor, a checkpoint of a
different operation is a programming-error rejection (spec section 3). -/
def load_filter_tickets_operation : OngoingOperationType → Except String (Nat × Nat)
  | .noOp => .ok (FIRST_TICKET_ID, 0)
  | .filterTicketsOp first_ticket_id_in_batch nr_removed =>
      .ok (first_ticket_id_in_batch, nr_removed)
  | .selectWinnersOp _ _ => .error "Another ongoing operation is in progress"

/-- From `filter_tickets` (launchpad.rs lines 192-267).  Returns the storage
after the invocation and whether the operation completed
(`OperationCompletionStatus::Completed`). -/
def filter_tickets (ctx : Ctx) (gas : Nat) (stg : Storage) :
    Except String (Storage × Bool) :=
  if ¬ctx.winnerSelectionPeriodOpen then .error "Not in winner selection period"
  else if stg.flags.were_tickets_filtered then .error "Tickets already filtered"
  else
    match load_filter_tickets_operation stg.ongoingOp with
    | .error e => .error e
    | .ok (first_ticket_id_in_batch, nr_removed) =>
      let last_ticket_id := stg.lastTicketId
      let flags1 :=
        if first_ticket_id_in_batch = FIRST_TICKET_ID then
          { stg.flags with has_winner_selection_process_started := true }
        else stg.flags
      let r := run_while_it_has_gas (filterUnit last_ticket_id) gas
        ⟨first_ticket_id_in_batch, nr_removed, stg⟩
      if r.2 then
        let new_last_ticket_id := last_ticket_id - r.1.nr_removed
        let nr_winning_tickets := r.1.stg.nrWinningTickets
        .ok ({ r.1.stg with
               lastTicketId := new_last_ticket_id,
               nrWinningTickets :=
                 if new_last_ticket_id < nr_winning_tickets then new_last_ticket_id
                 else nr_winning_tickets,
               flags := { flags1 with were_tickets_filtered := true },
               ongoingOp := .noOp }, true)
      else
        .ok ({ r.1.stg with
               flags := flags1,
               ongoingOp := .filterTicketsOp r.1.first_ticket_id_in_batch r.1.nr_removed },
             false)

/-- From `shuffle_single_ticket` (launchpad.rs lines 437-450): draw a position
in `[current, last]`, mark the ticket id occupying the drawn position, and
record the previous occupant of the current position at the drawn position. -/
def shuffle_single_ticket (rng : Rng) (current_ticket_position last_ticket_position : Nat)
    (stg : Storage) : Rng × Storage :=
  let d := rng.next_usize_in_range current_ticket_position (last_ticket_position + 1)
  let rand_pos := d.1
  let winning_ticket_id := get_ticket_id_from_pos stg rand_pos
  let stg1 := { stg with ticketStatus := updF stg.ticketStatus winning_ticket_id (some true) }
  let current_ticket_id := get_ticket_id_from_pos stg1 current_ticket_position
  (d.2, { stg1 with ticketPosToId := updF stg1.ticketPosToId rand_pos current_ticket_id })

/-- State threaded through the `select_winners` closure. -/
structure SelectLoopState where
  rng : Rng
  ticket_position : Nat
  stg : Storage

/-- One unit of work of the `select_winners` loop (launchpad.rs lines 282-292):
shuffle the current position, stop when it equals the winning ticket count,
otherwise advance. -/
def selectUnit (nr_winning_tickets last_ticket_position : Nat) (s : SelectLoopState) :
    SelectLoopState × Bool :=
  let r := shuffle_single_ticket s.rng s.ticket_position last_ticket_position s.stg
  if s.ticket_position = nr_winning_tickets then (⟨r.1, s.ticket_position, r.2⟩, true)
  else (⟨r.1, s.ticket_position + 1, r.2⟩, false)

/-- Modelled from the spec: `load_select_winners_operation` of module
ongoing_operation.rs (not under src/): no checkpoint starts fresh with the
externally supplied seed at position FIRST_TICKET_ID, a selection checkpoint
restores the serialized PRNG state and position, a checkpoint of a different
operation is rejected (spec sections 3 and 4.4). -/
def load_select_winners_operation (freshRng : Rng) :
    OngoingOperationType → Except String (Rng × Nat)
  | .noOp => .ok (freshRng, FIRST_TICKET_ID)
  | .selectWinnersOp rng ticket_position => .ok (rng, ticket_position)
  | .filterTicketsOp _ _ => .error "Another ongoing operation is in progress"

/-- From `select_winners` (launchpad.rs lines 269-318). -/
def select_winners (ctx : Ctx) (freshRng : Rng) (gas : Nat) (stg : Storage) :
    Except String (Storage × Bool) :=
  if ¬ctx.winnerSelectionPeriodOpen then .error "Not in winner selection period"
  else if ¬stg.flags.were_tickets_filtered then .error "Must filter tickets first"
  else if stg.flags.were_winners_selected then .error "Winners already selected"
  else
    match load_select_winners_operation freshRng stg.ongoingOp with
    | .error e => .error e
    | .ok (rng0, ticket_position0) =>
      let nr_winning_tickets := stg.nrWinningTickets
      let last_ticket_position := stg.lastTicketId
      let r := run_while_it_has_gas (selectUnit nr_winning_tickets last_ticket_position) gas
        ⟨rng0, ticket_position0, stg⟩
      if r.2 then
        .ok ({ r.1.stg with
               flags := { stg.flags with were_winners_selected := true },
               claimableTicketPayment := stg.ticketPriceAmount * nr_winning_tickets,
               ongoingOp := .noOp }, true)
      else
        .ok ({ r.1.stg with
               ongoingOp := .selectWinnersOp r.1.rng r.1.ticket_position }, false)

/-- Body of the `claim_launchpad_tokens` loop for one ticket id: clear a
winning status (counting it as redeemable) and clear the shuffle overlay entry. -/
def claimTicketStep (s : Storage × Nat) (ticket_id : Nat) : Storage × Nat :=
  let s1 :=
    if statusRead s.1 ticket_id = WINNING_TICKET then
      ({ s.1 with ticketStatus := updF s.1.ticketStatus ticket_id none }, s.2 + 1)
    else s
  ({ s1.1 with ticketPosToId := updF s1.1.ticketPosToId ticket_id 0 }, s1.2)

/-- From `claim_launchpad_tokens` (launchpad.rs lines 320-356). -/
def claim_launchpad_tokens (ctx : Ctx) (stg : Storage) : Except String Storage :=
  if ¬ctx.claimPeriodOpen then .error "Not in claim period"
  else if stg.claimList ctx.caller then .error "Already claimed"
  else
    match stg.ticketRangeForAddress ctx.caller with
    | none => .error "You have no tickets"
    | some ticket_range =>
      let nr_confirmed_tickets := stg.nrConfirmedTickets ctx.caller
      let ids := (List.range (ticket_range.last_id + 1 - ticket_range.first_id)).map
        (ticket_range.first_id + ·)
      let res := ids.foldl claimTicketStep (stg, 0)
      let nr_redeemable_tickets := res.2
      let stg2 := { res.1 with
        nrConfirmedTickets := updF res.1.nrConfirmedTickets ctx.caller 0,
        ticketRangeForAddress := updF res.1.ticketRangeForAddress ctx.caller none,
        ticketBatch := updF res.1.ticketBatch ticket_range.first_id none }
      let stg3 :=
        if 0 < nr_redeemable_tickets then
          { stg2 with nrWinningTickets := stg2.nrWinningTickets - nr_redeemable_tickets }
        else stg2
      let stg4 := { stg3 with claimList := updF stg3.claimList ctx.caller true }
      let stg5 := refund_ticket_payment ctx.caller
        (nr_confirmed_tickets - nr_redeemable_tickets) stg4
      .ok (send_launchpad_tokens ctx.caller nr_redeemable_tickets stg5)

/-- Number of ticket ids in `[1, m]` whose status reads as WINNING_TICKET. -/
def countWinners (stg : Storage) (m : Nat) : Nat :=
  ((Finset.Icc 1 m).filter (fun i => statusRead stg i = true)).card

/-- Empty storage, as after `init` with all mappers empty. -/
def emptyStorage : Storage where
  lastTicketId := 0
  ticketBatch := fun _ => none
  ticketRangeForAddress := fun _ => none
  nrConfirmedTickets := fun _ => 0
  ticketStatus := fun _ => none
  ticketPosToId := fun _ => 0
  nrWinningTickets := 0
  blacklist := fun _ => false
  claimList := fun _ => false
  flags := ⟨false, false, false⟩
  ongoingOp := .noOp
  ticketPriceToken := 0
  ticketPriceAmount := 0
  launchpadTokenId := 0
  launchpadTokensPerWinningTicket := 0
  claimableTicketPayment := 0
  launchpadTokensDeposited := false
  supportAddress := 0
  sends := []

/-- Context with every period predicate open, caller and owner both address 0. -/
def openCtx : Ctx where
  caller := 0
  owner := 0
  addTicketsPeriodOpen := true
  confirmationPeriodOpen := true
  winnerSelectionPeriodOpen := true
  claimPeriodOpen := true
  beforeWinnerSelection := true
  paymentToken := 0
  paymentAmount := 0

/-- The driver preserves any property of the loop state that each unit of work
preserves. -/
theorem run_while_it_has_gas_preserves {σ : Type} (step : σ → σ × Bool) (P : σ → Prop)
    (hstep : ∀ s, P s → P (step s).1) :
    ∀ g s, P s → P (run_while_it_has_gas step g s).1 := by
  intro g
  induction g with
  | zero => intro s h; exact h
  | succ n ih =>
    intro s h
    simp only [run_while_it_has_gas]
    by_cases hb : (step s).2 <;> simp only [hb, if_true, if_false]
    · exact hstep s h
    · exact ih _ (hstep s h)

/-- One filtering unit leaves every storage field untouched except the batch
and range maps. -/
theorem filterUnit_preserves (L : Nat) (s : FilterLoopState) :
    (filterUnit L s).1.stg.nrWinningTickets = s.stg.nrWinningTickets ∧
    (filterUnit L s).1.stg.lastTicketId = s.stg.lastTicketId ∧
    (filterUnit L s).1.stg.flags = s.stg.flags ∧
    (filterUnit L s).1.stg.nrConfirmedTickets = s.stg.nrConfirmedTickets ∧
    (filterUnit L s).1.stg.blacklist = s.stg.blacklist ∧
    (filterUnit L s).1.stg.ticketStatus = s.stg.ticketStatus ∧
    (filterUnit L s).1.stg.ticketPosToId = s.stg.ticketPosToId ∧
    (filterUnit L s).1.stg.ongoingOp = s.stg.ongoingOp := by
  simp only [filterUnit]
  split <;> [skip; split] <;> simp

/-- Filtering loop runs leave every storage field untouched except the batch
and range maps. -/
theorem runFilter_preserves (L g : Nat) (s : FilterLoopState) :
    (run_while_it_has_gas (filterUnit L) g s).1.stg.nrWinningTickets =
      s.stg.nrWinningTickets ∧
    (run_while_it_has_gas (filterUnit L) g s).1.stg.lastTicketId = s.stg.lastTicketId ∧
    (run_while_it_has_gas (filterUnit L) g s).1.stg.flags = s.stg.flags ∧
    (run_while_it_has_gas (filterUnit L) g s).1.stg.nrConfirmedTickets =
      s.stg.nrConfirmedTickets ∧
    (run_while_it_has_gas (filterUnit L) g s).1.stg.blacklist = s.stg.blacklist ∧
    (run_while_it_has_gas (filterUnit L) g s).1.stg.ticketStatus = s.stg.ticketStatus ∧
    (run_while_it_has_gas (filterUnit L) g s).1.stg.ticketPosToId = s.stg.ticketPosToId := by
  have := run_while_it_has_gas_preserves (filterUnit L)
    (fun t => t.stg.nrWinningTickets = s.stg.nrWinningTickets ∧
      t.stg.lastTicketId = s.stg.lastTicketId ∧
      t.stg.flags = s.stg.flags ∧
      t.stg.nrConfirmedTickets = s.stg.nrConfirmedTickets ∧
      t.stg.blacklist = s.stg.blacklist ∧
      t.stg.ticketStatus = s.stg.ticketStatus ∧
      t.stg.ticketPosToId = s.stg.ticketPosToId)
    (by
      intro t ht
      obtain ⟨h1, h2, h3, h4, h5, h6, h7, _⟩ := filterUnit_preserves L t
      exact ⟨h1.trans ht.1, h2.trans ht.2.1, h3.trans ht.2.2.1, h4.trans ht.2.2.2.1,
        h5.trans ht.2.2.2.2.1, h6.trans ht.2.2.2.2.2.1, h7.trans ht.2.2.2.2.2.2⟩)
    g s ⟨rfl, rfl, rfl, rfl, rfl, rfl, rfl⟩
  exact this

/-- C7: invoking select_winners when winners were already selected fails with
the labeled rejection "Winners already selected", and invoking filter_tickets
after tickets were filtered fails with "Tickets already filtered"; an error
result models the atomic revert, so no storage field changes. -/
theorem c7_completed_reinvocation_rejected (ctx : Ctx) (fresh : Rng) (gas : Nat)
    (stg : Storage)
    (hperiod : ctx.winnerSelectionPeriodOpen = true)
    (hfilt : stg.flags.were_tickets_filtered = true)
    (hsel : stg.flags.were_winners_selected = true) :
    select_winners ctx fresh gas stg = .error "Winners already selected" ∧
    filter_tickets ctx gas stg = .error "Tickets already filtered" := by
  unfold select_winners filter_tickets
  simp [hperiod, hfilt, hsel]

theorem c7_completed_reinvocation_rejected_witness :
    select_winners openCtx ⟨fun _ => 0, 0⟩ 5
        { emptyStorage with flags := ⟨true, true, true⟩ } =
      .error "Winners already selected" ∧
    filter_tickets openCtx 5 { emptyStorage with flags := ⟨true, true, true⟩ } =
      .error "Tickets already filtered" :=
  c7_completed_reinvocation_rejected openCtx ⟨fun _ => 0, 0⟩ 5
    { emptyStorage with flags := ⟨true, true, true⟩ } rfl rfl rfl

/-- C6: when a filter_tickets invocation completes, the stored winner count
becomes the minimum of its previous value and the new total ticket count
(clamping, not an error: the run returns successfully), and the
tickets-filtered flag is set. -/
theorem c6_winner_count_clamped (ctx : Ctx) (gas : Nat) (stg sf : Storage)
    (h : filter_tickets ctx gas stg = .ok (sf, true)) :
    sf.nrWinningTickets = min stg.nrWinningTickets sf.lastTicketId ∧
    sf.flags.were_tickets_filtered = true := by
  unfold filter_tickets at h
  split at h
  · exact absurd h (by simp)
  split at h
  · exact absurd h (by simp)
  rcases hload : load_filter_tickets_operation stg.ongoingOp with e | ⟨first0, rem0⟩ <;>
    rw [hload] at h
  · exact absurd h (by simp)
  simp only at h
  split at h
  · rename_i hcompleted
    have hpres := runFilter_preserves stg.lastTicketId gas ⟨first0, rem0, stg⟩
    simp only [Except.ok.injEq, Prod.mk.injEq] at h
    obtain ⟨hsf, -⟩ := h
    subst hsf
    refine ⟨?_, rfl⟩
    simp only []
    rw [hpres.1]
    simp only [Nat.min_def]
    split <;> split <;> omega
  · exact absurd h (by simp)

/-- Concrete storage for the C6 witness: one address (7) holding one ticket,
confirmed, with a configured winner count of 5 that must be clamped to 1. -/
def c6stg : Storage :=
  { emptyStorage with
    lastTicketId := 1
    ticketBatch := updF emptyStorage.ticketBatch 1 (some ⟨7, 1⟩)
    ticketRangeForAddress := updF emptyStorage.ticketRangeForAddress 7 (some ⟨1, 1⟩)
    nrConfirmedTickets := updF emptyStorage.nrConfirmedTickets 7 1
    nrWinningTickets := 5 }

/-- Storage after the completed C6 witness run. -/
def c6sf : Storage :=
  match filter_tickets openCtx 2 c6stg with
  | .ok (s, _) => s
  | .error _ => emptyStorage

theorem c6_winner_count_clamped_witness :
    c6sf.nrWinningTickets = min c6stg.nrWinningTickets c6sf.lastTicketId ∧
    c6sf.flags.were_tickets_filtered = true :=
  c6_winner_count_clamped openCtx 2 c6stg c6sf rfl

/-- C5 counterexample: with seed stream constantly 1, at position p = 1 with
M = 2 total tickets the draw is r = 2, whose previous occupant is ticket 2;
the claim as stated says the overlay now records that position p = 1 maps to
r's previous occupant (ticket 2), but after the step position 1 has no overlay
entry and still resolves to ticket 1: the code records the mapping at the
drawn position r, not at p. -/
theorem c5_counterexample :
    (Rng.next_usize_in_range ⟨fun _ => 1, 0⟩ 1 (2 + 1)).1 = 2 ∧
    get_ticket_id_from_pos emptyStorage 2 = 2 ∧
    (shuffle_single_ticket ⟨fun _ => 1, 0⟩ 1 2 emptyStorage).2.ticketPosToId 1 = 0 ∧
    ¬(get_ticket_id_from_pos (shuffle_single_ticket ⟨fun _ => 1, 0⟩ 1 2 emptyStorage).2 1 =
        get_ticket_id_from_pos emptyStorage 2) := by
  refine ⟨rfl, rfl, rfl, ?_⟩
  intro h
  simp [shuffle_single_ticket, get_ticket_id_from_pos, Rng.next_usize_in_range,
    emptyStorage, updF] at h

/-- C5 amended: for ticket position p (1 ≤ p ≤ M), one shuffle step draws a
position r in [p, M] inclusive, resolves the ids occupying r and p through the
position-to-id overlay (absent/zero entry resolves a position to itself, which
is what get_ticket_id_from_pos does), marks the id logically at position r as
a winner leaving all other statuses unchanged, and records that position r
(the drawn position, not p as the claim stated) now maps to p's previous
occupant, leaving all other overlay entries unchanged. -/
theorem c5_shuffle_step_amended (rng : Rng) (p M : Nat) (stg : Storage)
    (_hp1 : 1 ≤ p) (h2 : p ≤ M) :
    p ≤ (rng.next_usize_in_range p (M + 1)).1 ∧
    (rng.next_usize_in_range p (M + 1)).1 ≤ M ∧
    statusRead (shuffle_single_ticket rng p M stg).2
      (get_ticket_id_from_pos stg (rng.next_usize_in_range p (M + 1)).1) = WINNING_TICKET ∧
    (∀ i, i ≠ get_ticket_id_from_pos stg (rng.next_usize_in_range p (M + 1)).1 →
      (shuffle_single_ticket rng p M stg).2.ticketStatus i = stg.ticketStatus i) ∧
    (shuffle_single_ticket rng p M stg).2.ticketPosToId
        (rng.next_usize_in_range p (M + 1)).1 = get_ticket_id_from_pos stg p ∧
    (∀ q, q ≠ (rng.next_usize_in_range p (M + 1)).1 →
      (shuffle_single_ticket rng p M stg).2.ticketPosToId q = stg.ticketPosToId q) := by
  have hlt : rng.seed rng.index % (M + 1 - p) < M + 1 - p :=
    Nat.mod_lt _ (by omega)
  refine ⟨?_, ?_, ?_, ?_, ?_, ?_⟩
  · simp [Rng.next_usize_in_range]
  · simp only [Rng.next_usize_in_range]
    omega
  · simp [shuffle_single_ticket, statusRead, updF, WINNING_TICKET]
  · intro i hi
    simp only [shuffle_single_ticket, updF]
    simp only [if_neg hi]
  · simp [shuffle_single_ticket, get_ticket_id_from_pos, updF]
  · intro q hq
    simp only [shuffle_single_ticket, updF]
    simp only [if_neg hq]

theorem c5_shuffle_step_amended_witness :
    1 ≤ (1 : Nat) ∧ (1 : Nat) ≤ 2 ∧
    (1 ≤ (Rng.next_usize_in_range ⟨fun _ => 1, 0⟩ 1 (2 + 1)).1 ∧
      (Rng.next_usize_in_range ⟨fun _ => 1, 0⟩ 1 (2 + 1)).1 ≤ 2 ∧
      statusRead (shuffle_single_ticket ⟨fun _ => 1, 0⟩ 1 2 emptyStorage).2
        (get_ticket_id_from_pos emptyStorage
          (Rng.next_usize_in_range ⟨fun _ => 1, 0⟩ 1 (2 + 1)).1) = WINNING_TICKET ∧
      (∀ i, i ≠ get_ticket_id_from_pos emptyStorage
          (Rng.next_usize_in_range ⟨fun _ => 1, 0⟩ 1 (2 + 1)).1 →
        (shuffle_single_ticket ⟨fun _ => 1, 0⟩ 1 2 emptyStorage).2.ticketStatus i =
          emptyStorage.ticketStatus i) ∧
      (shuffle_single_ticket ⟨fun _ => 1, 0⟩ 1 2 emptyStorage).2.ticketPosToId
          (Rng.next_usize_in_range ⟨fun _ => 1, 0⟩ 1 (2 + 1)).1 =
        get_ticket_id_from_pos emptyStorage 1 ∧
      (∀ q, q ≠ (Rng.next_usize_in_range ⟨fun _ => 1, 0⟩ 1 (2 + 1)).1 →
        (shuffle_single_ticket ⟨fun _ => 1, 0⟩ 1 2 emptyStorage).2.ticketPosToId q =
          emptyStorage.ticketPosToId q)) :=
  ⟨by decide, by decide,
    c5_shuffle_step_amended ⟨fun _ => 1, 0⟩ 1 2 emptyStorage (by decide) (by decide)⟩

/-- C9: confirm_tickets succeeds only when the payment token is the configured
ticket payment token and the payment amount is the ticket price times the
confirmed count, and on success the caller's confirmed count stays within the
size of the caller's allocated range; when the requested confirmation would
exceed that size (with the earlier checks passing), it rejects with "Trying to
confirm too many tickets", an error result modelling the unchanged-state
revert. -/
theorem c9_confirm_payment_and_bound (ctx : Ctx) (n : Nat) (stg : Storage) :
    (∀ sf, confirm_tickets ctx n stg = .ok sf →
      ctx.paymentToken = stg.ticketPriceToken ∧
      ctx.paymentAmount = stg.ticketPriceAmount * n ∧
      sf.nrConfirmedTickets ctx.caller ≤
        get_total_number_of_tickets_for_address stg ctx.caller) ∧
    (ctx.confirmationPeriodOpen = true → stg.launchpadTokensDeposited = true →
      stg.blacklist ctx.caller = false →
      get_total_number_of_tickets_for_address stg ctx.caller <
        stg.nrConfirmedTickets ctx.caller + n →
      confirm_tickets ctx n stg = .error "Trying to confirm too many tickets") := by
  constructor
  · intro sf h
    unfold confirm_tickets at h
    by_cases h1 : ctx.confirmationPeriodOpen
    case neg => simp [h1] at h
    by_cases h2 : stg.launchpadTokensDeposited
    case neg => simp [h1, h2] at h
    by_cases h3 : stg.blacklist ctx.caller
    case pos => simp [h1, h2, h3] at h
    by_cases h4 : stg.nrConfirmedTickets ctx.caller + n ≤
      get_total_number_of_tickets_for_address stg ctx.caller
    case neg => simp [h1, h2, h3, h4] at h
    by_cases h5 : ctx.paymentToken = stg.ticketPriceToken
    case neg => simp [h1, h2, h3, h4, h5] at h
    by_cases h6 : ctx.paymentAmount = stg.ticketPriceAmount * n
    case neg => simp [h1, h2, h3, h4, h5, h6] at h
    simp only [h1, h2, h3, h4, h5, h6] at h
    simp at h
    subst h
    exact ⟨h5, h6, by simpa [updF] using h4⟩
  · intro hper hdep hbl hover
    unfold confirm_tickets
    have hnot : ¬(stg.nrConfirmedTickets ctx.caller + n ≤
        get_total_number_of_tickets_for_address stg ctx.caller) := by omega
    simp [hper, hdep, hbl, hnot]

/-- Concrete storage for the C9 witness: caller 0 holds tickets [1, 2], price
3 in token 5, launchpad tokens deposited. -/
def c9stg : Storage :=
  { emptyStorage with
    lastTicketId := 2
    ticketBatch := updF emptyStorage.ticketBatch 1 (some ⟨0, 2⟩)
    ticketRangeForAddress := updF emptyStorage.ticketRangeForAddress 0 (some ⟨1, 2⟩)
    ticketPriceToken := 5
    ticketPriceAmount := 3
    launchpadTokensDeposited := true }

/-- Context for the C9 witness: correct payment of 2 tickets at price 3. -/
def c9ctx : Ctx := { openCtx with paymentToken := 5, paymentAmount := 6 }

/-- Storage after the successful C9 witness confirmation. -/
def c9sf : Storage :=
  match confirm_tickets c9ctx 2 c9stg with
  | .ok s => s
  | .error _ => emptyStorage

theorem c9_confirm_payment_and_bound_witness :
    (c9ctx.paymentToken = c9stg.ticketPriceToken ∧
      c9ctx.paymentAmount = c9stg.ticketPriceAmount * 2 ∧
      c9sf.nrConfirmedTickets c9ctx.caller ≤
        get_total_number_of_tickets_for_address c9stg c9ctx.caller) ∧
    confirm_tickets c9ctx 5 c9stg = .error "Trying to confirm too many tickets" :=
  ⟨(c9_confirm_payment_and_bound c9ctx 2 c9stg).1 c9sf rfl,
    (c9_confirm_payment_and_bound c9ctx 5 c9stg).2 rfl rfl rfl (by decide)⟩

/-- Effect of one blacklist-loop iteration, field by field. -/
theorem blacklistOne_spec (stg : Storage) (a : Nat) :
    (blacklistOne stg a).blacklist = updF stg.blacklist a true ∧
    (blacklistOne stg a).nrConfirmedTickets = updF stg.nrConfirmedTickets a 0 ∧
    (blacklistOne stg a).sends = stg.sends ++
      (if 0 < stg.nrConfirmedTickets a then
        [(a, stg.ticketPriceToken, stg.ticketPriceAmount * stg.nrConfirmedTickets a)]
      else []) ∧
    (blacklistOne stg a).ticketPriceToken = stg.ticketPriceToken ∧
    (blacklistOne stg a).ticketPriceAmount = stg.ticketPriceAmount ∧
    (blacklistOne stg a).ticketRangeForAddress = stg.ticketRangeForAddress ∧
    (blacklistOne stg a).ticketBatch = stg.ticketBatch ∧
    (blacklistOne stg a).ticketStatus = stg.ticketStatus ∧
    (blacklistOne stg a).lastTicketId = stg.lastTicketId ∧
    (blacklistOne stg a).flags = stg.flags ∧
    (blacklistOne stg a).nrWinningTickets = stg.nrWinningTickets ∧
    (blacklistOne stg a).ongoingOp = stg.ongoingOp ∧
    (blacklistOne stg a).claimList = stg.claimList := by
  by_cases h : 0 < stg.nrConfirmedTickets a
  · simp [blacklistOne, refund_ticket_payment, h, Nat.pos_iff_ne_zero.mp h]
  · have h0 : stg.nrConfirmedTickets a = 0 := by omega
    refine ⟨by simp [blacklistOne, h], ?_, by simp [blacklistOne, h], ?_⟩
    · simp only [blacklistOne, if_neg h]
      funext x
      simp only [updF]
      split
      · rename_i hx; subst hx; exact h0
      · rfl
    · simp [blacklistOne, h]

/-- Effect of the whole blacklist loop: every listed address ends blacklisted
with zero confirmed tickets, unlisted addresses are untouched, and exactly the
listed addresses that had a nonzero confirmed count get one refund of that
count times the ticket price. -/
theorem foldBlacklist_spec : ∀ (users : List Nat) (stg : Storage), users.Nodup →
    (∀ a ∈ users, (users.foldl blacklistOne stg).blacklist a = true ∧
      (users.foldl blacklistOne stg).nrConfirmedTickets a = 0) ∧
    (∀ a, a ∉ users →
      (users.foldl blacklistOne stg).blacklist a = stg.blacklist a ∧
      (users.foldl blacklistOne stg).nrConfirmedTickets a = stg.nrConfirmedTickets a) ∧
    (users.foldl blacklistOne stg).sends = stg.sends ++
      users.filterMap (fun a =>
        if 0 < stg.nrConfirmedTickets a then
          some (a, stg.ticketPriceToken, stg.ticketPriceAmount * stg.nrConfirmedTickets a)
        else none) ∧
    (users.foldl blacklistOne stg).ticketPriceToken = stg.ticketPriceToken ∧
    (users.foldl blacklistOne stg).ticketPriceAmount = stg.ticketPriceAmount ∧
    (users.foldl blacklistOne stg).ticketRangeForAddress = stg.ticketRangeForAddress ∧
    (users.foldl blacklistOne stg).ticketStatus = stg.ticketStatus ∧
    (users.foldl blacklistOne stg).lastTicketId = stg.lastTicketId ∧
    (users.foldl blacklistOne stg).flags = stg.flags := by
  intro users
  induction users with
  | nil => intro stg _; simp
  | cons u rest ih =>
    intro stg hnd
    have hnd' := hnd
    rw [List.nodup_cons] at hnd'
    obtain ⟨hu, hrest⟩ := hnd'
    obtain ⟨b1, b2, b3, b4, b5, b6, b7, b8, b9, b10, b11, b12, b13⟩ :=
      blacklistOne_spec stg u
    obtain ⟨i1, i2, i3, i4, i5, i6, i7, i8, i9⟩ := ih (blacklistOne stg u) hrest
    simp only [List.foldl_cons]
    refine ⟨?_, ?_, ?_, i4.trans b4, i5.trans b5, i6.trans b6, i7.trans b8, i8.trans b9,
      i9.trans b10⟩
    · intro a ha
      rcases List.mem_cons.mp ha with rfl | ha'
      · obtain ⟨j1, j2⟩ := (i2 a hu)
        constructor
        · rw [j1, b1]; simp [updF]
        · rw [j2, b2]; simp [updF]
      · exact (i1 a ha')
    · intro a ha
      have hau : a ≠ u := by intro hh; exact ha (hh ▸ List.mem_cons_self u rest)
      have ha' : a ∉ rest := fun hh => ha (List.mem_cons_of_mem u hh)
      obtain ⟨j1, j2⟩ := i2 a ha'
      constructor
      · rw [j1, b1]; simp [updF, hau]
      · rw [j2, b2]; simp [updF, hau]
    · rw [i3, b3]
      have hcongr : rest.filterMap (fun a =>
          if 0 < (blacklistOne stg u).nrConfirmedTickets a then
            some (a, (blacklistOne stg u).ticketPriceToken,
              (blacklistOne stg u).ticketPriceAmount *
                (blacklistOne stg u).nrConfirmedTickets a)
          else none) =
        rest.filterMap (fun a =>
          if 0 < stg.nrConfirmedTickets a then
            some (a, stg.ticketPriceToken, stg.ticketPriceAmount * stg.nrConfirmedTickets a)
          else none) := by
        refine List.filterMap_congr ?_
        intro x hx
        have hxu : x ≠ u := by intro hh; exact hu (hh ▸ hx)
        rw [b2, b4, b5]
        simp [updF, hxu]
      rw [hcongr]
      by_cases hpos : 0 < stg.nrConfirmedTickets u
      · simp [List.filterMap_cons, hpos]
      · simp [List.filterMap_cons, hpos]

/-- C10: add_users_to_blacklist, for every listed address with a nonzero
confirmed count, emits exactly one refund of confirmed-count times the ticket
price to that address and resets its confirmed count to zero while
blacklisting it; listed addresses with zero confirmed tickets are blacklisted
with no transfer, and no ticket range, status, or other address's counters
change. -/
theorem c10_blacklist_refunds (ctx : Ctx) (users : List Nat) (stg : Storage)
    (hperm : ctx.caller = ctx.owner)
    (hbefore : ctx.beforeWinnerSelection = true)
    (hnd : users.Nodup) :
    ∃ sf, add_users_to_blacklist ctx users stg = .ok sf ∧
      (∀ a ∈ users, sf.blacklist a = true ∧ sf.nrConfirmedTickets a = 0) ∧
      (∀ a, a ∉ users → sf.blacklist a = stg.blacklist a ∧
        sf.nrConfirmedTickets a = stg.nrConfirmedTickets a) ∧
      sf.sends = stg.sends ++ users.filterMap (fun a =>
        if 0 < stg.nrConfirmedTickets a then
          some (a, stg.ticketPriceToken, stg.ticketPriceAmount * stg.nrConfirmedTickets a)
        else none) ∧
      sf.ticketRangeForAddress = stg.ticketRangeForAddress ∧
      sf.ticketStatus = stg.ticketStatus ∧
      sf.lastTicketId = stg.lastTicketId ∧
      sf.flags = stg.flags := by
  refine ⟨users.foldl blacklistOne stg, ?_, ?_⟩
  · unfold add_users_to_blacklist
    simp [hperm, hbefore]
  · obtain ⟨i1, i2, i3, _, _, i6, i7, i8, i9⟩ := foldBlacklist_spec users stg hnd
    exact ⟨i1, i2, i3, i6, i7, i8, i9⟩

/-- Concrete storage for the C10 witness: address 3 has 2 confirmed tickets at
price 4, address 8 has none. -/
def c10stg : Storage :=
  { emptyStorage with
    nrConfirmedTickets := updF emptyStorage.nrConfirmedTickets 3 2
    ticketPriceToken := 9
    ticketPriceAmount := 4 }

theorem c10_blacklist_refunds_witness :
    ∃ sf, add_users_to_blacklist openCtx [3, 8] c10stg = .ok sf ∧
      (∀ a ∈ [3, 8], sf.blacklist a = true ∧ sf.nrConfirmedTickets a = 0) ∧
      (∀ a, a ∉ [3, 8] → sf.blacklist a = c10stg.blacklist a ∧
        sf.nrConfirmedTickets a = c10stg.nrConfirmedTickets a) ∧
      sf.sends = c10stg.sends ++ [3, 8].filterMap (fun a =>
        if 0 < c10stg.nrConfirmedTickets a then
          some (a, c10stg.ticketPriceToken,
            c10stg.ticketPriceAmount * c10stg.nrConfirmedTickets a)
        else none) ∧
      sf.ticketRangeForAddress = c10stg.ticketRangeForAddress ∧
      sf.ticketStatus = c10stg.ticketStatus ∧
      sf.lastTicketId = c10stg.lastTicketId ∧
      sf.flags = c10stg.flags :=
  c10_blacklist_refunds openCtx [3, 8] c10stg rfl rfl (by decide)

/-- Effect of one claim-loop iteration on the ticket status map and the fields
untouched by it. -/
theorem claimTicketStep_spec (s : Storage × Nat) (i : Nat) :
    (claimTicketStep s i).1.ticketStatus =
      (if statusRead s.1 i = true then updF s.1.ticketStatus i none
        else s.1.ticketStatus) ∧
    (claimTicketStep s i).1.claimList = s.1.claimList ∧
    (claimTicketStep s i).1.nrConfirmedTickets = s.1.nrConfirmedTickets ∧
    (claimTicketStep s i).1.ticketRangeForAddress = s.1.ticketRangeForAddress ∧
    (claimTicketStep s i).1.ticketBatch = s.1.ticketBatch ∧
    (claimTicketStep s i).1.sends = s.1.sends ∧
    (claimTicketStep s i).1.nrWinningTickets = s.1.nrWinningTickets := by
  by_cases h : statusRead s.1 i = true <;>
    simp [claimTicketStep, WINNING_TICKET, h]

/-- Effect of the whole claim loop: each processed ticket id that was winning
has its status entry cleared (removed), other ids keep their status entry, and
the fields the loop does not touch are preserved. -/
theorem claimFold_spec : ∀ (ids : List Nat) (s : Storage × Nat), ids.Nodup →
    (∀ i ∈ ids, (ids.foldl claimTicketStep s).1.ticketStatus i =
      if statusRead s.1 i = true then none else s.1.ticketStatus i) ∧
    (∀ i, i ∉ ids →
      (ids.foldl claimTicketStep s).1.ticketStatus i = s.1.ticketStatus i) ∧
    (ids.foldl claimTicketStep s).1.claimList = s.1.claimList ∧
    (ids.foldl claimTicketStep s).1.nrConfirmedTickets = s.1.nrConfirmedTickets ∧
    (ids.foldl claimTicketStep s).1.ticketRangeForAddress = s.1.ticketRangeForAddress ∧
    (ids.foldl claimTicketStep s).1.ticketBatch = s.1.ticketBatch ∧
    (ids.foldl claimTicketStep s).1.sends = s.1.sends ∧
    (ids.foldl claimTicketStep s).1.nrWinningTickets = s.1.nrWinningTickets := by
  intro ids
  induction ids with
  | nil => intro s _; simp
  | cons u rest ih =>
    intro s hnd
    rw [List.nodup_cons] at hnd
    obtain ⟨hu, hrest⟩ := hnd
    obtain ⟨t1, t2, t3, t4, t5, t6, t7⟩ := claimTicketStep_spec s u
    obtain ⟨i1, i2, i3, i4, i5, i6, i7, i8⟩ := ih (claimTicketStep s u) hrest
    have hother : ∀ i, i ≠ u →
        (claimTicketStep s u).1.ticketStatus i = s.1.ticketStatus i := by
      intro i hiu
      rw [t1]
      split
      · simp [updF, hiu]
      · rfl
    have hotherRead : ∀ i, i ≠ u →
        statusRead (claimTicketStep s u).1 i = statusRead s.1 i := by
      intro i hiu
      simp only [statusRead]
      rw [hother i hiu]
    simp only [List.foldl_cons]
    refine ⟨?_, ?_, i3.trans t2, i4.trans t3, i5.trans t4, i6.trans t5, i7.trans t6,
      i8.trans t7⟩
    · intro i hi
      rcases List.mem_cons.mp hi with rfl | hi'
      · rw [i2 i hu, t1]
        by_cases hw : statusRead s.1 i = true
        · simp [hw, updF]
        · simp [hw]
      · have hiu : i ≠ u := by intro hh; exact hu (hh ▸ hi')
        rw [i1 i hi', hotherRead i hiu, hother i hiu]
    · intro i hi
      have hiu : i ≠ u := by intro hh; exact hi (hh ▸ List.mem_cons_self u rest)
      have hi' : i ∉ rest := fun hh => hi (List.mem_cons_of_mem u hh)
      rw [i2 i hi', hother i hiu]

/-- Refunding only appends to the send log. -/
theorem refund_fields (a n : Nat) (t : Storage) :
    (refund_ticket_payment a n t).ticketStatus = t.ticketStatus ∧
    (refund_ticket_payment a n t).claimList = t.claimList ∧
    (refund_ticket_payment a n t).ticketRangeForAddress = t.ticketRangeForAddress ∧
    (refund_ticket_payment a n t).nrConfirmedTickets = t.nrConfirmedTickets := by
  unfold refund_ticket_payment
  split <;> simp

/-- Sending launchpad tokens only appends to the send log. -/
theorem sendTokens_fields (a n : Nat) (t : Storage) :
    (send_launchpad_tokens a n t).ticketStatus = t.ticketStatus ∧
    (send_launchpad_tokens a n t).claimList = t.claimList ∧
    (send_launchpad_tokens a n t).ticketRangeForAddress = t.ticketRangeForAddress ∧
    (send_launchpad_tokens a n t).nrConfirmedTickets = t.nrConfirmedTickets := by
  unfold send_launchpad_tokens
  split <;> simp

/-- Output of a successful claim_launchpad_tokens call: the ticket status map
comes from the claim loop and the caller is recorded in the claim list. -/
theorem claim_ok_fields (ctx : Ctx) (stg : Storage) (tr : TicketRange)
    (hper : ctx.claimPeriodOpen = true)
    (hncl : stg.claimList ctx.caller = false)
    (hrange : stg.ticketRangeForAddress ctx.caller = some tr) :
    ∃ sf, claim_launchpad_tokens ctx stg = .ok sf ∧
      sf.ticketStatus =
        (((List.range (tr.last_id + 1 - tr.first_id)).map (tr.first_id + ·)).foldl
          claimTicketStep (stg, 0)).1.ticketStatus ∧
      sf.claimList =
        updF (((List.range (tr.last_id + 1 - tr.first_id)).map (tr.first_id + ·)).foldl
          claimTicketStep (stg, 0)).1.claimList ctx.caller true := by
  unfold claim_launchpad_tokens
  rw [hrange]
  simp only [hper, hncl, not_true, Bool.false_eq_true, if_false, ite_false, ite_true]
  refine ⟨_, rfl, ?_, ?_⟩
  · obtain ⟨r1, -, -, -⟩ := refund_fields ctx.caller
      (stg.nrConfirmedTickets ctx.caller -
        (((List.range (tr.last_id + 1 - tr.first_id)).map (tr.first_id + ·)).foldl
          claimTicketStep (stg, 0)).2) _
    obtain ⟨s1, -, -, -⟩ := sendTokens_fields ctx.caller
      (((List.range (tr.last_id + 1 - tr.first_id)).map (tr.first_id + ·)).foldl
        claimTicketStep (stg, 0)).2 _
    rw [s1, r1]
    split <;> rfl
  · obtain ⟨-, r2, -, -⟩ := refund_fields ctx.caller
      (stg.nrConfirmedTickets ctx.caller -
        (((List.range (tr.last_id + 1 - tr.first_id)).map (tr.first_id + ·)).foldl
          claimTicketStep (stg, 0)).2) _
    obtain ⟨-, s2, -, -⟩ := sendTokens_fields ctx.caller
      (((List.range (tr.last_id + 1 - tr.first_id)).map (tr.first_id + ·)).foldl
        claimTicketStep (stg, 0)).2 _
    rw [s2, r2]
    split <;> rfl

/-- C8: a successful claim_launchpad_tokens removes from storage (clears, not
merely sets false) the status entry of every winning ticket in the caller's
range and records the caller in the claim list, after which a second
invocation by the same caller fails with "Already claimed" (modelling the
atomic revert), so no ticket can be redeemed twice. -/
theorem c8_claim_clears_and_blocks_reclaim (ctx : Ctx) (stg : Storage) (tr : TicketRange)
    (hper : ctx.claimPeriodOpen = true)
    (hncl : stg.claimList ctx.caller = false)
    (hrange : stg.ticketRangeForAddress ctx.caller = some tr) :
    ∃ sf, claim_launchpad_tokens ctx stg = .ok sf ∧
      (∀ i, tr.first_id ≤ i → i ≤ tr.last_id → statusRead stg i = true →
        sf.ticketStatus i = none) ∧
      sf.claimList ctx.caller = true ∧
      claim_launchpad_tokens ctx sf = .error "Already claimed" := by
  have hids : ∀ i, tr.first_id ≤ i → i ≤ tr.last_id →
      i ∈ (List.range (tr.last_id + 1 - tr.first_id)).map (tr.first_id + ·) := by
    intro i h1 h2
    simp only [List.mem_map, List.mem_range]
    exact ⟨i - tr.first_id, by omega, by omega⟩
  have hnd : ((List.range (tr.last_id + 1 - tr.first_id)).map (tr.first_id + ·)).Nodup := by
    refine (List.nodup_range _).map ?_
    intro a b hab
    have hab' : tr.first_id + a = tr.first_id + b := hab
    omega
  obtain ⟨f1, -, -, -, -, -, -, -⟩ :=
    claimFold_spec ((List.range (tr.last_id + 1 - tr.first_id)).map (tr.first_id + ·))
      (stg, 0) hnd
  obtain ⟨sf, hok, hstat, hclsf⟩ := claim_ok_fields ctx stg tr hper hncl hrange
  have hclcaller : sf.claimList ctx.caller = true := by
    rw [hclsf]
    simp [updF]
  refine ⟨sf, hok, ?_, hclcaller, ?_⟩
  · intro i hi1 hi2 hw
    rw [hstat, f1 i (hids i hi1 hi2)]
    simp [hw]
  · unfold claim_launchpad_tokens
    simp [hper, hclcaller]

/-- Concrete storage for the C8 witness: caller 0 holds tickets [1, 2],
ticket 1 is winning. -/
def c8stg : Storage :=
  { emptyStorage with
    lastTicketId := 2
    ticketBatch := updF emptyStorage.ticketBatch 1 (some ⟨0, 2⟩)
    ticketRangeForAddress := updF emptyStorage.ticketRangeForAddress 0 (some ⟨1, 2⟩)
    nrConfirmedTickets := updF emptyStorage.nrConfirmedTickets 0 2
    ticketStatus := updF emptyStorage.ticketStatus 1 (some true)
    nrWinningTickets := 1 }

theorem c8_claim_clears_and_blocks_reclaim_witness :
    ∃ sf, claim_launchpad_tokens openCtx c8stg = .ok sf ∧
      (∀ i, (1 : Nat) ≤ i → i ≤ 2 → statusRead c8stg i = true →
        sf.ticketStatus i = none) ∧
      sf.claimList openCtx.caller = true ∧
      claim_launchpad_tokens openCtx sf = .error "Already claimed" :=
  c8_claim_clears_and_blocks_reclaim openCtx c8stg ⟨1, 2⟩ rfl rfl rfl

/-- Modelled from the spec: one privileged address of the guaranteed-ticket
extension (the launchpad-guaranteed-tickets contract source is not under src/,
only its tests and wasm bindings are): the set of the address's confirmed
ticket ids and its guaranteed quota (spec sections 2 and 4.5). -/
structure GuaranteedUser where
  confirmed : Finset Nat
  quota : Nat

/-- Smallest element of a finite set of ticket ids, used as the deterministic
"pick any eligible ticket" of the guaranteed-ticket phases. -/
def pickFrom (s : Finset Nat) : Option Nat :=
  if h : s.Nonempty then some (s.min' h) else none

theorem pickFrom_none {s : Finset Nat} (h : pickFrom s = none) : s = ∅ := by
  unfold pickFrom at h
  split at h
  · exact absurd h (by simp)
  · rename_i hne
    exact Finset.not_nonempty_iff_eq_empty.mp hne

theorem pickFrom_some {s : Finset Nat} {t : Nat} (h : pickFrom s = some t) : t ∈ s := by
  unfold pickFrom at h
  split at h
  · rename_i hne
    have : s.min' hne = t := by simpa using h
    exact this ▸ s.min'_mem hne
  · exact absurd h (by simp)

/-- Modelled from the spec: phase-1 marking for a single privileged address
(spec section 4.5): attempt to mark up to `quota` of the address's confirmed
tickets as winners, skipping any already marked; returns the new winner set
and how many tickets were actually marked. -/
def markUpTo : Nat → Finset Nat → Finset Nat → Finset Nat × Nat
  | 0, _, w => (w, 0)
  | q + 1, c, w =>
    match pickFrom (c \ w) with
    | none => (w, 0)
    | some t =>
      let r := markUpTo q c (insert t w)
      (r.1, r.2 + 1)

/-- Modelled from the spec: `select_guaranteed_tickets` (spec section 4.5
phase 1): walk all addresses holding a guaranteed quota, mark up to each quota
among that address's confirmed not-yet-winning tickets, and accumulate every
unmet unit into the leftover count.  Returns the winner set and
`leftover_tickets`. -/
def select_guaranteed_tickets : List GuaranteedUser → Finset Nat → Finset Nat × Nat
  | [], w => (w, 0)
  | u :: us, w =>
    let r := markUpTo u.quota u.confirmed w
    let rest := select_guaranteed_tickets us r.1
    (rest.1, rest.2 + (u.quota - r.2))

/-- Modelled from the spec: `distribute_leftover_tickets` (spec section 4.5
phase 2): for each unit of leftover_tickets, draw one more ticket among the
tickets in `[1, m]` that are not already winners and mark it. -/
def distribute_leftover_tickets (m : Nat) : Nat → Finset Nat → Finset Nat
  | 0, w => w
  | l + 1, w =>
    match pickFrom (Finset.Icc 1 m \ w) with
    | none => w
    | some t => distribute_leftover_tickets m l (insert t w)

/-- Modelled from the spec: the full guaranteed-ticket overlay after the base
random draw: phase 1 then phase 2 on the leftover count it produced. -/
def guaranteedPipeline (m : Nat) (users : List GuaranteedUser) (w0 : Finset Nat) :
    Finset Nat :=
  let p1 := select_guaranteed_tickets users w0
  distribute_leftover_tickets m p1.2 p1.1

/-- Total guaranteed quota of a user list. -/
def sumQuota (users : List GuaranteedUser) : Nat :=
  (users.map GuaranteedUser.quota).sum

theorem markUpTo_zero (c w : Finset Nat) : markUpTo 0 c w = (w, 0) := rfl

theorem markUpTo_succ (q : Nat) (c w : Finset Nat) :
    markUpTo (q + 1) c w =
      match pickFrom (c \ w) with
      | none => (w, 0)
      | some t => ((markUpTo q c (insert t w)).1, (markUpTo q c (insert t w)).2 + 1) := rfl

theorem select_guaranteed_nil (w : Finset Nat) :
    select_guaranteed_tickets [] w = (w, 0) := rfl

theorem select_guaranteed_cons (u : GuaranteedUser) (us : List GuaranteedUser)
    (w : Finset Nat) :
    select_guaranteed_tickets (u :: us) w =
      ((select_guaranteed_tickets us (markUpTo u.quota u.confirmed w).1).1,
        (select_guaranteed_tickets us (markUpTo u.quota u.confirmed w).1).2 +
          (u.quota - (markUpTo u.quota u.confirmed w).2)) := rfl

theorem distribute_leftover_zero (m : Nat) (w : Finset Nat) :
    distribute_leftover_tickets m 0 w = w := rfl

theorem distribute_leftover_succ (m l : Nat) (w : Finset Nat) :
    distribute_leftover_tickets m (l + 1) w =
      match pickFrom (Finset.Icc 1 m \ w) with
      | none => w
      | some t => distribute_leftover_tickets m l (insert t w) := rfl

theorem markUpTo_spec : ∀ (q : Nat) (c w : Finset Nat),
    (markUpTo q c w).2 ≤ q ∧
    (markUpTo q c w).1.card = w.card + (markUpTo q c w).2 ∧
    (markUpTo q c w).1 ⊆ w ∪ c := by
  intro q
  induction q with
  | zero => intro c w; simp [markUpTo_zero]
  | succ n ih =>
    intro c w
    rw [markUpTo_succ]
    rcases hp : pickFrom (c \ w) with - | t
    · simp
    · have ht := pickFrom_some hp
      rw [Finset.mem_sdiff] at ht
      obtain ⟨htc, htw⟩ := ht
      obtain ⟨ih1, ih2, ih3⟩ := ih c (insert t w)
      simp only []
      refine ⟨by omega, ?_, ?_⟩
      · rw [ih2, Finset.card_insert_of_not_mem htw]
        omega
      · intro x hx
        have := ih3 hx
        rw [Finset.mem_union, Finset.mem_insert] at this
        rw [Finset.mem_union]
        rcases this with (rfl | hw) | hc
        · exact Or.inr htc
        · exact Or.inl hw
        · exact Or.inr hc

theorem select_guaranteed_spec : ∀ (users : List GuaranteedUser) (w : Finset Nat),
    (select_guaranteed_tickets users w).1.card + (select_guaranteed_tickets users w).2 =
      w.card + sumQuota users ∧
    (select_guaranteed_tickets users w).1 ⊆ w ∪ users.foldr (fun u a => u.confirmed ∪ a) ∅ := by
  intro users
  induction users with
  | nil => intro w; simp [select_guaranteed_nil, sumQuota]
  | cons u us ih =>
    intro w
    obtain ⟨m1, m2, m3⟩ := markUpTo_spec u.quota u.confirmed w
    obtain ⟨ih1, ih2⟩ := ih (markUpTo u.quota u.confirmed w).1
    rw [select_guaranteed_cons]
    constructor
    · have hsum : sumQuota (u :: us) = u.quota + sumQuota us := by
        simp [sumQuota]
      rw [hsum]
      simp only []
      omega
    · intro x hx
      have := ih2 hx
      rw [Finset.mem_union] at this
      rcases this with hw | hrest
      · have := m3 hw
        rw [Finset.mem_union] at this
        rcases this with hw' | hc
        · exact Finset.mem_union.mpr (Or.inl hw')
        · refine Finset.mem_union.mpr (Or.inr ?_)
          simp only [List.foldr_cons]
          exact Finset.mem_union.mpr (Or.inl hc)
      · refine Finset.mem_union.mpr (Or.inr ?_)
        simp only [List.foldr_cons]
        exact Finset.mem_union.mpr (Or.inr hrest)

theorem distribute_leftover_spec (m : Nat) : ∀ (l : Nat) (w : Finset Nat),
    w ⊆ Finset.Icc 1 m → w.card + l ≤ m →
    (distribute_leftover_tickets m l w).card = w.card + l := by
  intro l
  induction l with
  | zero => intro w _ _; simp [distribute_leftover_zero]
  | succ n ih =>
    intro w hsub hle
    rw [distribute_leftover_succ]
    rcases hp : pickFrom (Finset.Icc 1 m \ w) with - | t
    · exfalso
      have hempty := pickFrom_none hp
      have hcard : (Finset.Icc 1 m \ w).card = m - w.card := by
        rw [Finset.card_sdiff hsub, Nat.card_Icc]
        omega
      rw [hempty] at hcard
      simp at hcard
      omega
    · have ht := pickFrom_some hp
      rw [Finset.mem_sdiff] at ht
      obtain ⟨htI, htw⟩ := ht
      have hsub' : insert t w ⊆ Finset.Icc 1 m := by
        intro x hx
        rcases Finset.mem_insert.mp hx with rfl | hxw
        · exact htI
        · exact hsub hxw
      have hcard' : (insert t w).card = w.card + 1 := Finset.card_insert_of_not_mem htw
      simp only []
      rw [ih (insert t w) hsub' (by omega), hcard']
      omega

/-- C1: with the guaranteed-ticket phases modelled from the spec, for every
base random draw outcome, guaranteed-quota configuration and confirmed-ticket
state (quotas may exceed, equal, or fall short of the holders' confirmed
eligible tickets), after select_guaranteed_tickets and
distribute_leftover_tickets have run to completion, the number of tickets
marked winning is exactly the configured winner count T, where the base draw
supplied T minus the total guaranteed quota winners and T is at most the
ticket count (the clamp established by filtering). -/
theorem foldr_confirmed_subset (users : List GuaranteedUser) (m : Nat)
    (hconf : ∀ u ∈ users, u.confirmed ⊆ Finset.Icc 1 m) :
    users.foldr (fun u a => u.confirmed ∪ a) ∅ ⊆ Finset.Icc 1 m := by
  induction users with
  | nil => simp
  | cons u us ih =>
    intro x hx
    simp only [List.foldr_cons, Finset.mem_union] at hx
    rcases hx with hc | hrest
    · exact hconf u (List.mem_cons_self u us) hc
    · exact ih (fun v hv => hconf v (List.mem_cons_of_mem u hv)) hrest

theorem c1_guaranteed_total_winner_count (m T : Nat) (users : List GuaranteedUser)
    (w0 : Finset Nat)
    (hw0 : w0 ⊆ Finset.Icc 1 m)
    (hconf : ∀ u ∈ users, u.confirmed ⊆ Finset.Icc 1 m)
    (hcount : w0.card + sumQuota users = T)
    (hTm : T ≤ m) :
    (guaranteedPipeline m users w0).card = T := by
  obtain ⟨h1, h2⟩ := select_guaranteed_spec users w0
  have hsub : (select_guaranteed_tickets users w0).1 ⊆ Finset.Icc 1 m := by
    intro x hx
    have := h2 hx
    rw [Finset.mem_union] at this
    rcases this with hw | hconfm
    · exact hw0 hw
    · exact foldr_confirmed_subset users m hconf hconfm
  unfold guaranteedPipeline
  rw [distribute_leftover_spec m _ _ hsub (by omega)]
  omega

theorem c1_guaranteed_total_winner_count_witness :
    (({1, 2} : Finset Nat) ⊆ Finset.Icc 1 5 ∧
      (∀ u ∈ [(⟨{4, 5}, 1⟩ : GuaranteedUser)], u.confirmed ⊆ Finset.Icc 1 5) ∧
      Finset.card {1, 2} + sumQuota [(⟨{4, 5}, 1⟩ : GuaranteedUser)] = 3 ∧ 3 ≤ 5) ∧
    (guaranteedPipeline 5 [(⟨{4, 5}, 1⟩ : GuaranteedUser)] {1, 2}).card = 3 :=
  ⟨⟨by decide, by decide, by decide, by decide⟩,
    c1_guaranteed_total_winner_count 5 3 [⟨{4, 5}, 1⟩] {1, 2}
      (by decide) (by decide) (by decide) (by decide)⟩

/-- Storage effect of one shuffle step when the drawn position is `r`. -/
def shuffleApply (stg : Storage) (p r : Nat) : Storage :=
  { stg with
    ticketStatus := updF stg.ticketStatus (get_ticket_id_from_pos stg r) (some true),
    ticketPosToId := updF stg.ticketPosToId r (get_ticket_id_from_pos stg p) }

theorem shuffle_eq_apply (rng : Rng) (p M : Nat) (stg : Storage) :
    shuffle_single_ticket rng p M stg =
      ((rng.next_usize_in_range p (M + 1)).2,
        shuffleApply stg p (rng.next_usize_in_range p (M + 1)).1) := rfl

/-- The drawn position always lies in `[p, M]` when `p ≤ M`. -/
theorem rand_mem (rng : Rng) (p M : Nat) (h : p ≤ M) :
    (rng.next_usize_in_range p (M + 1)).1 ∈ Finset.Icc p M := by
  have := Nat.mod_lt (rng.seed rng.index) (show 0 < M + 1 - p by omega)
  simp only [Rng.next_usize_in_range, Finset.mem_Icc]
  omega

/-- Set of ticket ids logically occupying the still-unprocessed positions
`[p, M]` through the shuffle overlay. -/
def survivors (stg : Storage) (p M : Nat) : Finset Nat :=
  (Finset.Icc p M).image (get_ticket_id_from_pos stg)

/-- Set of winning ticket ids among `[1, M]`. -/
def winnersSet (stg : Storage) (M : Nat) : Finset Nat :=
  (Finset.Icc 1 M).filter (fun i => statusRead stg i = true)

theorem countWinners_eq (stg : Storage) (M : Nat) :
    countWinners stg M = (winnersSet stg M).card := rfl

/-- Invariant of the partial Fisher-Yates shuffle before processing position
`p`: the winners are exactly the ids displaced out of the unprocessed
positions, the overlay restricted to unprocessed positions is injective with
values among the ticket ids, and no id outside `[1, M]` is marked. -/
structure SelInv (stg : Storage) (p M : Nat) : Prop where
  compl : winnersSet stg M = Finset.Icc 1 M \ survivors stg p M
  inj : ∀ a ∈ Finset.Icc p M, ∀ b ∈ Finset.Icc p M,
    get_ticket_id_from_pos stg a = get_ticket_id_from_pos stg b → a = b
  mem : ∀ x ∈ Finset.Icc p M, get_ticket_id_from_pos stg x ∈ Finset.Icc 1 M
  outside : ∀ i, statusRead stg i = true → i ∈ Finset.Icc 1 M

/-- A fresh state (no statuses, empty overlay) satisfies the invariant at
position 1. -/
theorem selInv_init (stg : Storage) (M : Nat)
    (hstatus : ∀ i, stg.ticketStatus i = none)
    (hpos : ∀ q, stg.ticketPosToId q = 0) :
    SelInv stg 1 M := by
  have hid : ∀ x, get_ticket_id_from_pos stg x = x := by
    intro x
    simp [get_ticket_id_from_pos, hpos]
  have hread : ∀ i, statusRead stg i = false := by
    intro i
    simp [statusRead, hstatus]
  refine ⟨?_, ?_, ?_, ?_⟩
  · have h1 : winnersSet stg M = ∅ := by
      unfold winnersSet
      refine Finset.filter_eq_empty_iff.mpr ?_
      intro i _
      simp [hread]
    have h2 : survivors stg 1 M = Finset.Icc 1 M := by
      unfold survivors
      refine Finset.ext ?_
      intro x
      simp only [Finset.mem_image]
      constructor
      · rintro ⟨q, hq, rfl⟩
        rw [hid]
        exact hq
      · intro hx
        exact ⟨x, hx, hid x⟩
    rw [h1, h2]
    simp
  · intro a _ b _ hab
    rw [hid, hid] at hab
    exact hab
  · intro x hx
    rw [hid]
    rw [Finset.mem_Icc] at hx ⊢
    omega
  · intro i hi
    rw [hread] at hi
    exact absurd hi (by simp)

/-- Reading the overlay at a position holding a stored nonzero id. -/
theorem idAt_of_posToId_eq {t : Storage} {q v : Nat} (h : t.ticketPosToId q = v)
    (hv : 1 ≤ v) : get_ticket_id_from_pos t q = v := by
  simp only [get_ticket_id_from_pos, h]
  rw [if_neg (by omega)]

/-- Overlay resolution only depends on the stored entry at that position. -/
theorem idAt_congr {t s : Storage} {q : Nat}
    (h : t.ticketPosToId q = s.ticketPosToId q) :
    get_ticket_id_from_pos t q = get_ticket_id_from_pos s q := by
  simp only [get_ticket_id_from_pos, h]

/-- Resolution through the overlay after one shuffle step: position `r` now
resolves to `p`'s previous occupant, other positions are unchanged. -/
theorem shuffleApply_idAt (stg : Storage) (p r M : Nat) (hpM : p ≤ M)
    (inv : SelInv stg p M) (q : Nat) :
    get_ticket_id_from_pos (shuffleApply stg p r) q =
      if q = r then get_ticket_id_from_pos stg p else get_ticket_id_from_pos stg q := by
  have hpmem : p ∈ Finset.Icc p M := by
    rw [Finset.mem_Icc]; omega
  have hApos : 1 ≤ get_ticket_id_from_pos stg p := by
    have := inv.mem p hpmem
    rw [Finset.mem_Icc] at this
    omega
  by_cases hq : q = r
  · subst hq
    rw [if_pos rfl]
    refine idAt_of_posToId_eq ?_ hApos
    simp [shuffleApply, updF]
  · rw [if_neg hq]
    refine idAt_congr ?_
    simp [shuffleApply, updF, hq]

/-- Status reads after one shuffle step: the id at the drawn position is
marked, everything else is unchanged. -/
theorem shuffleApply_read (stg : Storage) (p r : Nat) (i : Nat) :
    statusRead (shuffleApply stg p r) i =
      if i = get_ticket_id_from_pos stg r then true else statusRead stg i := by
  by_cases hi : i = get_ticket_id_from_pos stg r
  · simp [shuffleApply, statusRead, updF, hi]
  · simp [shuffleApply, statusRead, updF, hi]

/-- One shuffle step at position `p` with a drawn position in `[p, M]`
advances the invariant to `p + 1`. -/
theorem selInv_step (stg : Storage) (p M r : Nat) (hp1 : 1 ≤ p) (hpM : p ≤ M)
    (hr : r ∈ Finset.Icc p M) (inv : SelInv stg p M) :
    SelInv (shuffleApply stg p r) (p + 1) M := by
  have hrm := hr
  rw [Finset.mem_Icc] at hrm
  have hpmem : p ∈ Finset.Icc p M := by rw [Finset.mem_Icc]; omega
  have hidAt := shuffleApply_idAt stg p r M hpM inv
  have hwmem : get_ticket_id_from_pos stg r ∈ Finset.Icc 1 M := inv.mem r hr
  have hwS : get_ticket_id_from_pos stg r ∈ survivors stg p M := by
    unfold survivors
    rw [Finset.mem_image]
    exact ⟨r, hr, rfl⟩
  have hsurv : survivors (shuffleApply stg p r) (p + 1) M =
      (survivors stg p M).erase (get_ticket_id_from_pos stg r) := by
    refine Finset.ext ?_
    intro x
    simp only [survivors, Finset.mem_erase, Finset.mem_image, Finset.mem_Icc]
    constructor
    · rintro ⟨q, ⟨hq1, hq2⟩, hqx⟩
      rw [hidAt q] at hqx
      by_cases hqr : q = r
      · rw [if_pos hqr] at hqx
        refine ⟨?_, p, ⟨le_refl p, hpM⟩, hqx⟩
        intro hxw
        rw [← hqx] at hxw
        have : p = r := inv.inj p hpmem r hr hxw
        omega
      · rw [if_neg hqr] at hqx
        refine ⟨?_, q, ⟨by omega, hq2⟩, hqx⟩
        intro hxw
        rw [← hqx] at hxw
        have : q = r := inv.inj q (by rw [Finset.mem_Icc]; omega) r hr hxw
        exact hqr this
    · rintro ⟨hxw, q0, ⟨hq1, hq2⟩, hq0x⟩
      have hq0r : q0 ≠ r := by
        intro hh
        subst hh
        exact hxw hq0x.symm
      by_cases hq0p : q0 = p
      · subst hq0p
        have hrp : r ≠ q0 := fun hh => hq0r hh.symm
        refine ⟨r, ⟨by omega, hrm.2⟩, ?_⟩
        rw [hidAt r, if_pos rfl]
        exact hq0x
      · refine ⟨q0, ⟨by omega, hq2⟩, ?_⟩
        rw [hidAt q0, if_neg hq0r]
        exact hq0x
  have hwin : winnersSet (shuffleApply stg p r) M =
      insert (get_ticket_id_from_pos stg r) (winnersSet stg M) := by
    refine Finset.ext ?_
    intro i
    simp only [winnersSet, Finset.mem_insert, Finset.mem_filter]
    rw [shuffleApply_read]
    by_cases hi : i = get_ticket_id_from_pos stg r
    · subst hi
      simp [hwmem]
    · simp [hi]
  refine ⟨?_, ?_, ?_, ?_⟩
  · rw [hwin, hsurv, inv.compl]
    refine Finset.ext ?_
    intro i
    simp only [Finset.mem_insert, Finset.mem_sdiff, Finset.mem_erase]
    by_cases hi : i = get_ticket_id_from_pos stg r
    · subst hi
      simp [hwmem]
    · simp only [hi, false_or]
      constructor
      · rintro ⟨h1, h2⟩
        exact ⟨h1, fun hh => h2 hh.2⟩
      · rintro ⟨h1, h2⟩
        exact ⟨h1, fun hh => h2 ⟨hi, hh⟩⟩
  · intro a ha b hb hab
    rw [Finset.mem_Icc] at ha hb
    rw [hidAt a, hidAt b] at hab
    by_cases har : a = r <;> by_cases hbr : b = r
    · omega
    · rw [if_pos har, if_neg hbr] at hab
      have : p = b := inv.inj p hpmem b (by rw [Finset.mem_Icc]; omega) hab
      omega
    · rw [if_neg har, if_pos hbr] at hab
      have : a = p := inv.inj a (by rw [Finset.mem_Icc]; omega) p hpmem hab
      omega
    · rw [if_neg har, if_neg hbr] at hab
      exact inv.inj a (by rw [Finset.mem_Icc]; omega) b (by rw [Finset.mem_Icc]; omega) hab
  · intro x hx
    rw [Finset.mem_Icc] at hx
    rw [hidAt x]
    by_cases hxr : x = r
    · rw [if_pos hxr]
      exact inv.mem p hpmem
    · rw [if_neg hxr]
      exact inv.mem x (by rw [Finset.mem_Icc]; omega)
  · intro i hi
    rw [shuffleApply_read] at hi
    by_cases hir : i = get_ticket_id_from_pos stg r
    · subst hir
      exact hwmem
    · rw [if_neg hir] at hi
      exact inv.outside i hi

/-- Under the invariant at position `p`, exactly `p - 1` tickets are marked. -/
theorem selInv_card (stg : Storage) (p M : Nat) (inv : SelInv stg p M)
    (hp1 : 1 ≤ p) (hpM : p ≤ M + 1) :
    (winnersSet stg M).card = p - 1 := by
  have hsub : survivors stg p M ⊆ Finset.Icc 1 M := by
    intro x hx
    unfold survivors at hx
    rw [Finset.mem_image] at hx
    obtain ⟨q, hq, rfl⟩ := hx
    exact inv.mem q hq
  have hcardS : (survivors stg p M).card = M + 1 - p := by
    unfold survivors
    rw [Finset.card_image_of_injOn
      (fun a ha b hb hab => inv.inj a (Finset.mem_coe.mp ha) b (Finset.mem_coe.mp hb) hab)]
    rw [Nat.card_Icc]
  rw [inv.compl, Finset.card_sdiff hsub, hcardS, Nat.card_Icc]
  omega

theorem run_gas_zero {σ : Type} (step : σ → σ × Bool) (s : σ) :
    run_while_it_has_gas step 0 s = (s, false) := rfl

theorem run_gas_succ {σ : Type} (step : σ → σ × Bool) (g : Nat) (s : σ) :
    run_while_it_has_gas step (g + 1) s =
      if (step s).2 then ((step s).1, true)
      else run_while_it_has_gas step g (step s).1 := rfl

/-- A completed selection loop run started under the invariant at a position
in `[1, N]` ends with exactly `N` marked tickets, all inside `[1, M]`. -/
theorem selRun_count (N M : Nat) (hNM : N ≤ M) :
    ∀ (g : Nat) (rng : Rng) (p : Nat) (stg : Storage) (fin : SelectLoopState),
      SelInv stg p M → 1 ≤ p → p ≤ N →
      run_while_it_has_gas (selectUnit N M) g ⟨rng, p, stg⟩ = (fin, true) →
      (winnersSet fin.stg M).card = N ∧
      (∀ i, statusRead fin.stg i = true → i ∈ Finset.Icc 1 M) := by
  intro g
  induction g with
  | zero =>
    intro rng p stg fin _ _ _ h
    rw [run_gas_zero] at h
    exact absurd h (by simp)
  | succ n ih =>
    intro rng p stg fin inv hp1 hpN h
    have hpM : p ≤ M := by omega
    have hrand := rand_mem rng p M hpM
    have inv' := selInv_step stg p M _ hp1 hpM hrand inv
    rw [run_gas_succ] at h
    by_cases hpN' : p = N
    · have hstep : selectUnit N M ⟨rng, p, stg⟩ =
          (⟨(rng.next_usize_in_range p (M + 1)).2, p,
            shuffleApply stg p (rng.next_usize_in_range p (M + 1)).1⟩, true) := by
        simp [selectUnit, shuffle_eq_apply, hpN']
      rw [hstep] at h
      have h'' : ((⟨(rng.next_usize_in_range p (M + 1)).2, p,
          shuffleApply stg p (rng.next_usize_in_range p (M + 1)).1⟩ : SelectLoopState),
          true) = (fin, true) := h
      injection h'' with h1 h2
      subst h1
      constructor
      · have := selInv_card _ (p + 1) M inv' (by omega) (by omega)
        simpa [hpN'] using this
      · exact inv'.outside
    · have hstep : selectUnit N M ⟨rng, p, stg⟩ =
          (⟨(rng.next_usize_in_range p (M + 1)).2, p + 1,
            shuffleApply stg p (rng.next_usize_in_range p (M + 1)).1⟩, false) := by
        simp [selectUnit, shuffle_eq_apply, hpN']
      rw [hstep] at h
      have h'' : run_while_it_has_gas (selectUnit N M) n
          ⟨(rng.next_usize_in_range p (M + 1)).2, p + 1,
            shuffleApply stg p (rng.next_usize_in_range p (M + 1)).1⟩ = (fin, true) := h
      exact ih _ (p + 1) _ fin inv' (by omega) (by omega) h''

theorem winnersSet_congr {s t : Storage} (h : s.ticketStatus = t.ticketStatus) (M : Nat) :
    winnersSet s M = winnersSet t M := by
  unfold winnersSet statusRead
  rw [h]

/-- C2: from a filtered state with a clean status map and overlay, winner
count N (1 ≤ N ≤ M, already clamped) and total M tickets, a completed
select_winners run marks exactly N ticket ids as WINNING_TICKET, all of them
in `[1, M]`: each loop iteration marks a ticket no earlier iteration marked. -/
theorem c2_base_selection_count (ctx : Ctx) (fresh : Rng) (gas : Nat)
    (stg sf : Storage)
    (hop : stg.ongoingOp = .noOp)
    (hstatus : ∀ i, stg.ticketStatus i = none)
    (hpos : ∀ q, stg.ticketPosToId q = 0)
    (hN1 : 1 ≤ stg.nrWinningTickets)
    (hNM : stg.nrWinningTickets ≤ stg.lastTicketId)
    (hok : select_winners ctx fresh gas stg = .ok (sf, true)) :
    countWinners sf stg.lastTicketId = stg.nrWinningTickets ∧
    (∀ i, statusRead sf i = true → 1 ≤ i ∧ i ≤ stg.lastTicketId) := by
  unfold select_winners at hok
  split at hok
  · exact absurd hok (by simp)
  split at hok
  · exact absurd hok (by simp)
  split at hok
  · exact absurd hok (by simp)
  rw [hop] at hok
  simp only [load_select_winners_operation] at hok
  split at hok
  · rename_i hcond
    simp only [Except.ok.injEq, Prod.mk.injEq] at hok
    obtain ⟨hsf, -⟩ := hok
    have hrun : run_while_it_has_gas
        (selectUnit stg.nrWinningTickets stg.lastTicketId) gas ⟨fresh, FIRST_TICKET_ID, stg⟩ =
        ((run_while_it_has_gas (selectUnit stg.nrWinningTickets stg.lastTicketId) gas
          ⟨fresh, FIRST_TICKET_ID, stg⟩).1, true) := by
      have : run_while_it_has_gas
          (selectUnit stg.nrWinningTickets stg.lastTicketId) gas ⟨fresh, FIRST_TICKET_ID, stg⟩ =
          ((run_while_it_has_gas (selectUnit stg.nrWinningTickets stg.lastTicketId) gas
            ⟨fresh, FIRST_TICKET_ID, stg⟩).1,
          (run_while_it_has_gas (selectUnit stg.nrWinningTickets stg.lastTicketId) gas
            ⟨fresh, FIRST_TICKET_ID, stg⟩).2) := rfl
      rw [hcond] at this
      exact this
    obtain ⟨hcard, hout⟩ := selRun_count stg.nrWinningTickets stg.lastTicketId hNM gas
      fresh FIRST_TICKET_ID stg _ (selInv_init stg stg.lastTicketId hstatus hpos)
      (le_refl 1) hN1 hrun
    have hstatus_eq : sf.ticketStatus =
        (run_while_it_has_gas (selectUnit stg.nrWinningTickets stg.lastTicketId) gas
          ⟨fresh, FIRST_TICKET_ID, stg⟩).1.stg.ticketStatus := by
      rw [← hsf]
    constructor
    · rw [countWinners_eq, winnersSet_congr hstatus_eq]
      exact hcard
    · intro i hi
      have : statusRead (run_while_it_has_gas
          (selectUnit stg.nrWinningTickets stg.lastTicketId) gas
          ⟨fresh, FIRST_TICKET_ID, stg⟩).1.stg i = true := by
        unfold statusRead
        rw [← hstatus_eq]
        exact hi
      have := hout i this
      rw [Finset.mem_Icc] at this
      exact this
  · exact absurd hok (by simp)

/-- Concrete storage for the C2 witness: 3 filtered tickets, 2 winners to
select. -/
def c2stg : Storage :=
  { emptyStorage with
    lastTicketId := 3
    nrWinningTickets := 2
    flags := ⟨true, false, true⟩ }

/-- Storage after the completed C2 witness run. -/
def c2sf : Storage :=
  match select_winners openCtx ⟨fun _ => 0, 0⟩ 2 c2stg with
  | .ok (s, _) => s
  | .error _ => emptyStorage

theorem c2_base_selection_count_witness :
    countWinners c2sf c2stg.lastTicketId = c2stg.nrWinningTickets ∧
    (∀ i, statusRead c2sf i = true → 1 ≤ i ∧ i ≤ c2stg.lastTicketId) :=
  c2_base_selection_count openCtx ⟨fun _ => 0, 0⟩ 2 c2stg c2sf rfl
    (fun _ => rfl) (fun _ => rfl) (by decide) (by decide) rfl

/-- Splitting a driver budget: running with `g1 + g2` units equals running
with `g1` and, unless that stopped, continuing with `g2` from where it left
off.  This is the heart of the resumption-equivalence property. -/
theorem run_gas_add {σ : Type} (step : σ → σ × Bool) :
    ∀ (g1 g2 : Nat) (s : σ),
      run_while_it_has_gas step (g1 + g2) s =
        if (run_while_it_has_gas step g1 s).2 then run_while_it_has_gas step g1 s
        else run_while_it_has_gas step g2 (run_while_it_has_gas step g1 s).1 := by
  intro g1
  induction g1 with
  | zero =>
    intro g2 s
    rw [Nat.zero_add, run_gas_zero]
    simp
  | succ n ih =>
    intro g2 s
    have e : n + 1 + g2 = n + g2 + 1 := by omega
    rw [e, run_gas_succ, run_gas_succ]
    by_cases hb : (step s).2
    · simp [hb]
    · simp only [hb, Bool.false_eq_true, if_false]
      exact ih g2 (step s).1

/-- Overwriting the flags and checkpoint fields of a loop's storage, as done
when an interrupted invocation persists its cursor. -/
def setOpFlags (stg : Storage) (fl : Flags) (o : OngoingOperationType) : Storage :=
  { stg with flags := fl, ongoingOp := o }

/-- One selection unit neither reads nor writes the flags and checkpoint
fields, so it commutes with overwriting them. -/
theorem selectUnit_setOpFlags (N M : Nat) (fl : Flags) (o : OngoingOperationType)
    (rng : Rng) (p : Nat) (stg : Storage) :
    selectUnit N M ⟨rng, p, setOpFlags stg fl o⟩ =
      (⟨(selectUnit N M ⟨rng, p, stg⟩).1.rng,
        (selectUnit N M ⟨rng, p, stg⟩).1.ticket_position,
        setOpFlags (selectUnit N M ⟨rng, p, stg⟩).1.stg fl o⟩,
        (selectUnit N M ⟨rng, p, stg⟩).2) := by
  by_cases hp : p = N <;>
    simp [selectUnit, shuffle_eq_apply, shuffleApply, setOpFlags, hp,
      get_ticket_id_from_pos]

/-- Whole selection runs commute with overwriting flags and checkpoint. -/
theorem runSelect_setOpFlags (N M : Nat) (fl : Flags) (o : OngoingOperationType) :
    ∀ (g : Nat) (rng : Rng) (p : Nat) (stg : Storage),
      run_while_it_has_gas (selectUnit N M) g ⟨rng, p, setOpFlags stg fl o⟩ =
        (⟨(run_while_it_has_gas (selectUnit N M) g ⟨rng, p, stg⟩).1.rng,
          (run_while_it_has_gas (selectUnit N M) g ⟨rng, p, stg⟩).1.ticket_position,
          setOpFlags (run_while_it_has_gas (selectUnit N M) g ⟨rng, p, stg⟩).1.stg fl o⟩,
          (run_while_it_has_gas (selectUnit N M) g ⟨rng, p, stg⟩).2) := by
  intro g
  induction g with
  | zero =>
    intro rng p stg
    rw [run_gas_zero, run_gas_zero]
  | succ n ih =>
    intro rng p stg
    rw [run_gas_succ, run_gas_succ, selectUnit_setOpFlags]
    by_cases hb : (selectUnit N M ⟨rng, p, stg⟩).2 = true
    · rw [if_pos hb, if_pos hb]
    · rw [if_neg hb, if_neg hb]
      exact ih (selectUnit N M ⟨rng, p, stg⟩).1.rng
        (selectUnit N M ⟨rng, p, stg⟩).1.ticket_position
        (selectUnit N M ⟨rng, p, stg⟩).1.stg

/-- One selection unit leaves every storage field untouched except the status
and overlay maps. -/
theorem selectUnit_preserves (N M : Nat) (s : SelectLoopState) :
    (selectUnit N M s).1.stg.flags = s.stg.flags ∧
    (selectUnit N M s).1.stg.nrWinningTickets = s.stg.nrWinningTickets ∧
    (selectUnit N M s).1.stg.lastTicketId = s.stg.lastTicketId ∧
    (selectUnit N M s).1.stg.ticketPriceAmount = s.stg.ticketPriceAmount ∧
    (selectUnit N M s).1.stg.ongoingOp = s.stg.ongoingOp := by
  by_cases hp : s.ticket_position = N <;>
    simp [selectUnit, shuffle_eq_apply, shuffleApply, hp]

/-- Selection loop runs leave every storage field untouched except the status
and overlay maps. -/
theorem runSelect_preserves (N M g : Nat) (s : SelectLoopState) :
    (run_while_it_has_gas (selectUnit N M) g s).1.stg.flags = s.stg.flags ∧
    (run_while_it_has_gas (selectUnit N M) g s).1.stg.nrWinningTickets =
      s.stg.nrWinningTickets ∧
    (run_while_it_has_gas (selectUnit N M) g s).1.stg.lastTicketId = s.stg.lastTicketId ∧
    (run_while_it_has_gas (selectUnit N M) g s).1.stg.ticketPriceAmount =
      s.stg.ticketPriceAmount := by
  have := run_while_it_has_gas_preserves (selectUnit N M)
    (fun t => t.stg.flags = s.stg.flags ∧
      t.stg.nrWinningTickets = s.stg.nrWinningTickets ∧
      t.stg.lastTicketId = s.stg.lastTicketId ∧
      t.stg.ticketPriceAmount = s.stg.ticketPriceAmount)
    (by
      intro t ht
      obtain ⟨h1, h2, h3, h4, _⟩ := selectUnit_preserves N M t
      exact ⟨h1.trans ht.1, h2.trans ht.2.1, h3.trans ht.2.2.1, h4.trans ht.2.2.2⟩)
    g s ⟨rfl, rfl, rfl, rfl⟩
  exact this

/-- Characterization of an interrupted select_winners invocation. -/
theorem select_interrupted (ctx : Ctx) (fresh : Rng) (g : Nat) (stg s1 : Storage)
    (h : select_winners ctx fresh g stg = .ok (s1, false)) :
    ctx.winnerSelectionPeriodOpen = true ∧
    stg.flags.were_tickets_filtered = true ∧
    stg.flags.were_winners_selected = false ∧
    ∃ rng0 pos0,
      load_select_winners_operation fresh stg.ongoingOp = .ok (rng0, pos0) ∧
      (run_while_it_has_gas (selectUnit stg.nrWinningTickets stg.lastTicketId) g
        ⟨rng0, pos0, stg⟩).2 = false ∧
      s1 = { (run_while_it_has_gas (selectUnit stg.nrWinningTickets stg.lastTicketId) g
          ⟨rng0, pos0, stg⟩).1.stg with
        ongoingOp := .selectWinnersOp
          (run_while_it_has_gas (selectUnit stg.nrWinningTickets stg.lastTicketId) g
            ⟨rng0, pos0, stg⟩).1.rng
          (run_while_it_has_gas (selectUnit stg.nrWinningTickets stg.lastTicketId) g
            ⟨rng0, pos0, stg⟩).1.ticket_position } := by
  unfold select_winners at h
  split at h
  · exact absurd h (by simp)
  split at h
  · exact absurd h (by simp)
  split at h
  · exact absurd h (by simp)
  rename_i hper hfilt hsel
  rcases hload : load_select_winners_operation fresh stg.ongoingOp with e | ⟨rng0, pos0⟩ <;>
    rw [hload] at h
  · exact absurd h (by simp)
  simp only at h
  split at h
  · exact absurd h (by simp)
  · rename_i hrun
    simp only [Except.ok.injEq, Prod.mk.injEq] at h
    obtain ⟨hs1, -⟩ := h
    refine ⟨by simpa using hper, by simpa using hfilt, by simpa using hsel,
      rng0, pos0, rfl, by simpa using hrun, hs1.symm⟩

/-- Unfolding of a select_winners invocation whose precondition checks pass. -/
theorem select_winners_eq (ctx : Ctx) (fresh : Rng) (gas : Nat) (stg : Storage)
    (rng0 : Rng) (pos0 : Nat)
    (hper : ctx.winnerSelectionPeriodOpen = true)
    (hfilt : stg.flags.were_tickets_filtered = true)
    (hnsel : stg.flags.were_winners_selected = false)
    (hload : load_select_winners_operation fresh stg.ongoingOp = .ok (rng0, pos0)) :
    select_winners ctx fresh gas stg =
      (if (run_while_it_has_gas (selectUnit stg.nrWinningTickets stg.lastTicketId) gas
          ⟨rng0, pos0, stg⟩).2 then
        .ok ({ (run_while_it_has_gas (selectUnit stg.nrWinningTickets stg.lastTicketId) gas
            ⟨rng0, pos0, stg⟩).1.stg with
          flags := { stg.flags with were_winners_selected := true },
          claimableTicketPayment := stg.ticketPriceAmount * stg.nrWinningTickets,
          ongoingOp := .noOp }, true)
      else
        .ok ({ (run_while_it_has_gas (selectUnit stg.nrWinningTickets stg.lastTicketId) gas
            ⟨rng0, pos0, stg⟩).1.stg with
          ongoingOp := .selectWinnersOp
            (run_while_it_has_gas (selectUnit stg.nrWinningTickets stg.lastTicketId) gas
              ⟨rng0, pos0, stg⟩).1.rng
            (run_while_it_has_gas (selectUnit stg.nrWinningTickets stg.lastTicketId) gas
              ⟨rng0, pos0, stg⟩).1.ticket_position }, false)) := by
  unfold select_winners
  simp only [hper, hfilt, hnsel, not_true, Bool.false_eq_true, if_false, ite_false, ite_true]
  rw [hload]

/-- Pairwise resumption for select_winners: an invocation that interrupts,
persisting {seed, seed index, ticket position}, followed by a second
invocation with budget g2 (whose fresh seed argument is ignored), reaches
exactly the state of a single invocation with the combined budget and the
original seed. -/
theorem select_resume (ctx ctx2 : Ctx) (fresh fresh2 : Rng) (g1 g2 : Nat)
    (stg s1 : Storage)
    (hper2 : ctx2.winnerSelectionPeriodOpen = true)
    (h : select_winners ctx fresh g1 stg = .ok (s1, false)) :
    select_winners ctx2 fresh2 g2 s1 = select_winners ctx fresh (g1 + g2) stg := by
  obtain ⟨hper, hfilt, hnsel, rng0, pos0, hload, hrun2, hs1⟩ :=
    select_interrupted ctx fresh g1 stg s1 h
  obtain ⟨hRflags, hRN, hRM, hRprice⟩ :=
    runSelect_preserves stg.nrWinningTickets stg.lastTicketId g1 ⟨rng0, pos0, stg⟩
  have hs1flags : s1.flags = stg.flags := by rw [hs1]; exact hRflags
  have hs1N : s1.nrWinningTickets = stg.nrWinningTickets := by rw [hs1]; exact hRN
  have hs1M : s1.lastTicketId = stg.lastTicketId := by rw [hs1]; exact hRM
  have hs1price : s1.ticketPriceAmount = stg.ticketPriceAmount := by rw [hs1]; exact hRprice
  have hlhs := select_winners_eq ctx2 fresh2 g2 s1
    (run_while_it_has_gas (selectUnit stg.nrWinningTickets stg.lastTicketId) g1
      ⟨rng0, pos0, stg⟩).1.rng
    (run_while_it_has_gas (selectUnit stg.nrWinningTickets stg.lastTicketId) g1
      ⟨rng0, pos0, stg⟩).1.ticket_position
    hper2 (by rw [hs1flags]; exact hfilt) (by rw [hs1flags]; exact hnsel)
    (by rw [hs1]; rfl)
  have hrhs := select_winners_eq ctx fresh (g1 + g2) stg rng0 pos0 hper hfilt hnsel hload
  rw [hlhs, hrhs, run_gas_add]
  simp only [hrun2, Bool.false_eq_true, if_false]
  have hs1set : s1 = setOpFlags
      (run_while_it_has_gas (selectUnit stg.nrWinningTickets stg.lastTicketId) g1
        ⟨rng0, pos0, stg⟩).1.stg
      (run_while_it_has_gas (selectUnit stg.nrWinningTickets stg.lastTicketId) g1
        ⟨rng0, pos0, stg⟩).1.stg.flags
      (.selectWinnersOp
        (run_while_it_has_gas (selectUnit stg.nrWinningTickets stg.lastTicketId) g1
          ⟨rng0, pos0, stg⟩).1.rng
        (run_while_it_has_gas (selectUnit stg.nrWinningTickets stg.lastTicketId) g1
          ⟨rng0, pos0, stg⟩).1.ticket_position) := hs1
  have hfA : s1.flags.were_tickets_filtered = stg.flags.were_tickets_filtered := by
    rw [hs1flags]
  have hfB : s1.flags.has_winner_selection_process_started =
      stg.flags.has_winner_selection_process_started := by rw [hs1flags]
  rw [hs1N, hs1M, hs1price, hfA, hfB]
  conv =>
    lhs
    rw [hs1set, runSelect_setOpFlags]
  by_cases hq : (run_while_it_has_gas (selectUnit stg.nrWinningTickets stg.lastTicketId) g2
      (run_while_it_has_gas (selectUnit stg.nrWinningTickets stg.lastTicketId) g1
        ⟨rng0, pos0, stg⟩).1).2 = true
  · rw [if_pos hq, if_pos hq]
    rfl
  · rw [if_neg hq, if_neg hq]
    obtain ⟨hQflags, -, -, -⟩ := runSelect_preserves stg.nrWinningTickets stg.lastTicketId g2
      ((run_while_it_has_gas (selectUnit stg.nrWinningTickets stg.lastTicketId) g1
        ⟨rng0, pos0, stg⟩).1)
    rw [hQflags]
    rfl

/-- One filtering unit neither reads nor writes the flags and checkpoint
fields, so it commutes with overwriting them. -/
theorem filterUnit_setOpFlags (L : Nat) (fl : Flags) (o : OngoingOperationType)
    (f r : Nat) (stg : Storage) :
    filterUnit L ⟨f, r, setOpFlags stg fl o⟩ =
      (⟨(filterUnit L ⟨f, r, stg⟩).1.first_ticket_id_in_batch,
        (filterUnit L ⟨f, r, stg⟩).1.nr_removed,
        setOpFlags (filterUnit L ⟨f, r, stg⟩).1.stg fl o⟩,
        (filterUnit L ⟨f, r, stg⟩).2) := by
  simp only [filterUnit, setOpFlags]
  split <;> [skip; split] <;> rfl

/-- Whole filtering runs commute with overwriting flags and checkpoint. -/
theorem runFilter_setOpFlags (L : Nat) (fl : Flags) (o : OngoingOperationType) :
    ∀ (g : Nat) (f r : Nat) (stg : Storage),
      run_while_it_has_gas (filterUnit L) g ⟨f, r, setOpFlags stg fl o⟩ =
        (⟨(run_while_it_has_gas (filterUnit L) g ⟨f, r, stg⟩).1.first_ticket_id_in_batch,
          (run_while_it_has_gas (filterUnit L) g ⟨f, r, stg⟩).1.nr_removed,
          setOpFlags (run_while_it_has_gas (filterUnit L) g ⟨f, r, stg⟩).1.stg fl o⟩,
          (run_while_it_has_gas (filterUnit L) g ⟨f, r, stg⟩).2) := by
  intro g
  induction g with
  | zero =>
    intro f r stg
    rw [run_gas_zero, run_gas_zero]
  | succ n ih =>
    intro f r stg
    rw [run_gas_succ, run_gas_succ, filterUnit_setOpFlags]
    by_cases hb : (filterUnit L ⟨f, r, stg⟩).2 = true
    · rw [if_pos hb, if_pos hb]
    · rw [if_neg hb, if_neg hb]
      exact ih (filterUnit L ⟨f, r, stg⟩).1.first_ticket_id_in_batch
        (filterUnit L ⟨f, r, stg⟩).1.nr_removed
        (filterUnit L ⟨f, r, stg⟩).1.stg

/-- The filtering cursor never moves backwards. -/
theorem runFilter_first_mono (L g : Nat) (s : FilterLoopState) :
    s.first_ticket_id_in_batch ≤
      (run_while_it_has_gas (filterUnit L) g s).1.first_ticket_id_in_batch := by
  have := run_while_it_has_gas_preserves (filterUnit L)
    (fun t => s.first_ticket_id_in_batch ≤ t.first_ticket_id_in_batch)
    (by
      intro t ht
      have hle : t.first_ticket_id_in_batch ≤
          (filterUnit L t).1.first_ticket_id_in_batch := by
        simp only [filterUnit]
        omega
      omega)
    g s (le_refl _)
  exact this

/-- Unfolding of a filter_tickets invocation whose precondition checks pass. -/
theorem filter_tickets_eq (ctx : Ctx) (gas : Nat) (stg : Storage) (f0 r0 : Nat)
    (hper : ctx.winnerSelectionPeriodOpen = true)
    (hnfilt : stg.flags.were_tickets_filtered = false)
    (hload : load_filter_tickets_operation stg.ongoingOp = .ok (f0, r0)) :
    filter_tickets ctx gas stg =
      (if (run_while_it_has_gas (filterUnit stg.lastTicketId) gas ⟨f0, r0, stg⟩).2 then
        .ok ({ (run_while_it_has_gas (filterUnit stg.lastTicketId) gas ⟨f0, r0, stg⟩).1.stg with
          lastTicketId := stg.lastTicketId -
            (run_while_it_has_gas (filterUnit stg.lastTicketId) gas ⟨f0, r0, stg⟩).1.nr_removed,
          nrWinningTickets :=
            if stg.lastTicketId -
                (run_while_it_has_gas (filterUnit stg.lastTicketId) gas
                  ⟨f0, r0, stg⟩).1.nr_removed <
                (run_while_it_has_gas (filterUnit stg.lastTicketId) gas
                  ⟨f0, r0, stg⟩).1.stg.nrWinningTickets then
              stg.lastTicketId -
                (run_while_it_has_gas (filterUnit stg.lastTicketId) gas ⟨f0, r0, stg⟩).1.nr_removed
            else
              (run_while_it_has_gas (filterUnit stg.lastTicketId) gas
                ⟨f0, r0, stg⟩).1.stg.nrWinningTickets,
          flags := { (if f0 = FIRST_TICKET_ID then
              { stg.flags with has_winner_selection_process_started := true }
            else stg.flags) with were_tickets_filtered := true },
          ongoingOp := .noOp }, true)
      else
        .ok ({ (run_while_it_has_gas (filterUnit stg.lastTicketId) gas ⟨f0, r0, stg⟩).1.stg with
          flags := if f0 = FIRST_TICKET_ID then
              { stg.flags with has_winner_selection_process_started := true }
            else stg.flags,
          ongoingOp := .filterTicketsOp
            (run_while_it_has_gas (filterUnit stg.lastTicketId) gas
              ⟨f0, r0, stg⟩).1.first_ticket_id_in_batch
            (run_while_it_has_gas (filterUnit stg.lastTicketId) gas
              ⟨f0, r0, stg⟩).1.nr_removed }, false)) := by
  unfold filter_tickets
  simp only [hper, hnfilt, not_true, Bool.false_eq_true, if_false, ite_false, ite_true]
  rw [hload]

/-- Characterization of an interrupted filter_tickets invocation. -/
theorem filter_interrupted (ctx : Ctx) (g : Nat) (stg s1 : Storage)
    (h : filter_tickets ctx g stg = .ok (s1, false)) :
    ctx.winnerSelectionPeriodOpen = true ∧
    stg.flags.were_tickets_filtered = false ∧
    ∃ f0 r0,
      load_filter_tickets_operation stg.ongoingOp = .ok (f0, r0) ∧
      (run_while_it_has_gas (filterUnit stg.lastTicketId) g ⟨f0, r0, stg⟩).2 = false ∧
      s1 = { (run_while_it_has_gas (filterUnit stg.lastTicketId) g ⟨f0, r0, stg⟩).1.stg with
        flags := if f0 = FIRST_TICKET_ID then
            { stg.flags with has_winner_selection_process_started := true }
          else stg.flags,
        ongoingOp := .filterTicketsOp
          (run_while_it_has_gas (filterUnit stg.lastTicketId) g
            ⟨f0, r0, stg⟩).1.first_ticket_id_in_batch
          (run_while_it_has_gas (filterUnit stg.lastTicketId) g
            ⟨f0, r0, stg⟩).1.nr_removed } := by
  unfold filter_tickets at h
  split at h
  · exact absurd h (by simp)
  split at h
  · exact absurd h (by simp)
  rename_i hper hfilt
  rcases hload : load_filter_tickets_operation stg.ongoingOp with e | ⟨f0, r0⟩ <;>
    rw [hload] at h
  · exact absurd h (by simp)
  simp only at h
  split at h
  · exact absurd h (by simp)
  · rename_i hrun
    simp only [Except.ok.injEq, Prod.mk.injEq] at h
    obtain ⟨hs1, -⟩ := h
    refine ⟨by simpa using hper, by simpa using hfilt, f0, r0, rfl,
      by simpa using hrun, ?_⟩
    rw [← hs1]

/-- Pairwise resumption for filter_tickets: an invocation that interrupts,
persisting {first_ticket_id_in_batch, nr_removed}, followed by a second
invocation with budget g2, reaches exactly the state of a single invocation
with the combined budget. -/
theorem filter_resume (ctx ctx2 : Ctx) (g1 g2 : Nat) (stg s1 : Storage)
    (hper2 : ctx2.winnerSelectionPeriodOpen = true)
    (hwf : ∀ f r, stg.ongoingOp = .filterTicketsOp f r → 1 ≤ f)
    (h : filter_tickets ctx g1 stg = .ok (s1, false)) :
    filter_tickets ctx2 g2 s1 = filter_tickets ctx (g1 + g2) stg := by
  obtain ⟨hper, hnfilt, f0, r0, hload, hrun2, hs1⟩ := filter_interrupted ctx g1 stg s1 h
  have hf01 : 1 ≤ f0 := by
    rcases hop : stg.ongoingOp with - | ⟨f, r⟩ | ⟨rng, pos⟩ <;> rw [hop] at hload <;>
      simp [load_filter_tickets_operation, FIRST_TICKET_ID] at hload
    · omega
    · obtain ⟨hf, -⟩ := hload
      have := hwf f r hop
      omega
  obtain ⟨hpnrW, hplast, hpflags, hpconf, hpblack, hpstatus, hppos⟩ :=
    runFilter_preserves stg.lastTicketId g1 ⟨f0, r0, stg⟩
  have hs1flags : s1.flags = (if f0 = FIRST_TICKET_ID then
      { stg.flags with has_winner_selection_process_started := true } else stg.flags) := by
    rw [hs1]
  have hs1wtf : s1.flags.were_tickets_filtered = false := by
    rw [hs1flags]
    split
    · exact hnfilt
    · exact hnfilt
  have hs1last : s1.lastTicketId = stg.lastTicketId := by rw [hs1]; exact hplast
  have hloadLHS : load_filter_tickets_operation s1.ongoingOp =
      .ok ((run_while_it_has_gas (filterUnit stg.lastTicketId) g1
          ⟨f0, r0, stg⟩).1.first_ticket_id_in_batch,
        (run_while_it_has_gas (filterUnit stg.lastTicketId) g1
          ⟨f0, r0, stg⟩).1.nr_removed) := by
    rw [hs1]
    rfl
  have hlhs := filter_tickets_eq ctx2 g2 s1
    (run_while_it_has_gas (filterUnit stg.lastTicketId) g1
      ⟨f0, r0, stg⟩).1.first_ticket_id_in_batch
    (run_while_it_has_gas (filterUnit stg.lastTicketId) g1
      ⟨f0, r0, stg⟩).1.nr_removed
    hper2 hs1wtf hloadLHS
  have hrhs := filter_tickets_eq ctx (g1 + g2) stg f0 r0 hper hnfilt hload
  rw [hlhs, hrhs, run_gas_add]
  simp only [hrun2, Bool.false_eq_true, if_false]
  have hflagseq : (if (run_while_it_has_gas (filterUnit stg.lastTicketId) g1
        ⟨f0, r0, stg⟩).1.first_ticket_id_in_batch = FIRST_TICKET_ID then
      { s1.flags with has_winner_selection_process_started := true } else s1.flags) =
      (if f0 = FIRST_TICKET_ID then
        { stg.flags with has_winner_selection_process_started := true } else stg.flags) := by
    have hmono := runFilter_first_mono stg.lastTicketId g1 ⟨f0, r0, stg⟩
    by_cases hR1 : (run_while_it_has_gas (filterUnit stg.lastTicketId) g1
        ⟨f0, r0, stg⟩).1.first_ticket_id_in_batch = FIRST_TICKET_ID
    · have hf0eq : f0 = FIRST_TICKET_ID := by
        unfold FIRST_TICKET_ID at hR1 ⊢
        simp only at hmono
        omega
      rw [if_pos hR1, if_pos hf0eq, hs1flags, if_pos hf0eq]
    · rw [if_neg hR1, hs1flags]
  rw [hflagseq, hs1last]
  have hs1set : s1 = setOpFlags
      (run_while_it_has_gas (filterUnit stg.lastTicketId) g1 ⟨f0, r0, stg⟩).1.stg
      (if f0 = FIRST_TICKET_ID then
        { stg.flags with has_winner_selection_process_started := true } else stg.flags)
      (.filterTicketsOp
        (run_while_it_has_gas (filterUnit stg.lastTicketId) g1
          ⟨f0, r0, stg⟩).1.first_ticket_id_in_batch
        (run_while_it_has_gas (filterUnit stg.lastTicketId) g1
          ⟨f0, r0, stg⟩).1.nr_removed) := hs1
  conv =>
    lhs
    rw [hs1set, runFilter_setOpFlags]
  by_cases hq : (run_while_it_has_gas (filterUnit stg.lastTicketId) g2
      (run_while_it_has_gas (filterUnit stg.lastTicketId) g1 ⟨f0, r0, stg⟩).1).2 = true
  · rw [if_pos hq, if_pos hq]
    rfl
  · rw [if_neg hq, if_neg hq]
    rfl

/-- A completed select_winners invocation sets the winners-selected flag. -/
theorem select_completed_flag (ctx : Ctx) (fresh : Rng) (g : Nat) (stg sf : Storage)
    (h : select_winners ctx fresh g stg = .ok (sf, true)) :
    sf.flags.were_winners_selected = true := by
  unfold select_winners at h
  split at h
  · exact absurd h (by simp)
  split at h
  · exact absurd h (by simp)
  split at h
  · exact absurd h (by simp)
  rcases hload : load_select_winners_operation fresh stg.ongoingOp with e | ⟨rng0, pos0⟩ <;>
    rw [hload] at h
  · exact absurd h (by simp)
  simp only at h
  split at h
  · simp only [Except.ok.injEq, Prod.mk.injEq] at h
    obtain ⟨hsf, -⟩ := h
    rw [← hsf]
  · exact absurd h (by simp)

/-- Once the winners-selected flag is set, select_winners never returns ok. -/
theorem select_selected_not_ok (ctx : Ctx) (fresh : Rng) (g : Nat) (s : Storage)
    (hsel : s.flags.were_winners_selected = true) (r : Storage × Bool) :
    select_winners ctx fresh g s ≠ .ok r := by
  unfold select_winners
  by_cases h1 : ctx.winnerSelectionPeriodOpen <;>
    by_cases h2 : s.flags.were_tickets_filtered <;>
      simp [h1, h2, hsel]

/-- A completed filter_tickets invocation sets the tickets-filtered flag. -/
theorem filter_completed_flag (ctx : Ctx) (g : Nat) (stg sf : Storage)
    (h : filter_tickets ctx g stg = .ok (sf, true)) :
    sf.flags.were_tickets_filtered = true := by
  unfold filter_tickets at h
  split at h
  · exact absurd h (by simp)
  split at h
  · exact absurd h (by simp)
  rcases hload : load_filter_tickets_operation stg.ongoingOp with e | ⟨f0, r0⟩ <;>
    rw [hload] at h
  · exact absurd h (by simp)
  simp only at h
  split at h
  · simp only [Except.ok.injEq, Prod.mk.injEq] at h
    obtain ⟨hsf, -⟩ := h
    rw [← hsf]
  · exact absurd h (by simp)

/-- Once the tickets-filtered flag is set, filter_tickets never returns ok. -/
theorem filter_filtered_not_ok (ctx : Ctx) (g : Nat) (s : Storage)
    (hfilt : s.flags.were_tickets_filtered = true) (r : Storage × Bool) :
    filter_tickets ctx g s ≠ .ok r := by
  unfold filter_tickets
  by_cases h1 : ctx.winnerSelectionPeriodOpen <;> simp [h1, hfilt]

/-- An interrupted filter_tickets invocation leaves a checkpoint whose cursor
is at least FIRST_TICKET_ID, provided the incoming checkpoint was. -/
theorem filter_interrupted_wf (ctx : Ctx) (g : Nat) (stg s1 : Storage)
    (hwf : ∀ f r, stg.ongoingOp = .filterTicketsOp f r → 1 ≤ f)
    (h : filter_tickets ctx g stg = .ok (s1, false)) :
    ∀ f r, s1.ongoingOp = .filterTicketsOp f r → 1 ≤ f := by
  obtain ⟨hper, hnfilt, f0, r0, hload, hrun2, hs1⟩ := filter_interrupted ctx g stg s1 h
  have hf01 : 1 ≤ f0 := by
    rcases hop : stg.ongoingOp with - | ⟨f, r⟩ | ⟨rng, pos⟩ <;> rw [hop] at hload <;>
      simp [load_filter_tickets_operation, FIRST_TICKET_ID] at hload
    · omega
    · obtain ⟨hf, -⟩ := hload
      have := hwf f r hop
      omega
  have hmono := runFilter_first_mono stg.lastTicketId g ⟨f0, r0, stg⟩
  intro f r hfr
  rw [hs1] at hfr
  simp only [OngoingOperationType.filterTicketsOp.injEq] at hfr
  obtain ⟨hf, -⟩ := hfr
  simp only at hmono
  omega

/-- A sequence of select_winners invocations with the given gas budgets,
threading the storage returned by each call into the next one. -/
def selectSeq (ctx : Ctx) (fresh : Rng) : List Nat → Storage → Except String (Storage × Bool)
  | [], stg => .ok (stg, false)
  | [g], stg => select_winners ctx fresh g stg
  | g :: g2 :: gs, stg =>
    match select_winners ctx fresh g stg with
    | .error e => .error e
    | .ok (s1, _) => selectSeq ctx fresh (g2 :: gs) s1

/-- A sequence of filter_tickets invocations with the given gas budgets. -/
def filterSeq (ctx : Ctx) : List Nat → Storage → Except String (Storage × Bool)
  | [], stg => .ok (stg, false)
  | [g], stg => filter_tickets ctx g stg
  | g :: g2 :: gs, stg =>
    match filter_tickets ctx g stg with
    | .error e => .error e
    | .ok (s1, _) => filterSeq ctx (g2 :: gs) s1

theorem selectSeq_nil (ctx : Ctx) (fresh : Rng) (stg : Storage) :
    selectSeq ctx fresh [] stg = .ok (stg, false) := rfl

theorem selectSeq_one (ctx : Ctx) (fresh : Rng) (g : Nat) (stg : Storage) :
    selectSeq ctx fresh [g] stg = select_winners ctx fresh g stg := rfl

theorem selectSeq_cons (ctx : Ctx) (fresh : Rng) (g g2 : Nat) (gs : List Nat)
    (stg : Storage) :
    selectSeq ctx fresh (g :: g2 :: gs) stg =
      match select_winners ctx fresh g stg with
      | .error e => .error e
      | .ok (s1, _) => selectSeq ctx fresh (g2 :: gs) s1 := rfl

theorem filterSeq_nil (ctx : Ctx) (stg : Storage) :
    filterSeq ctx [] stg = .ok (stg, false) := rfl

theorem filterSeq_one (ctx : Ctx) (g : Nat) (stg : Storage) :
    filterSeq ctx [g] stg = filter_tickets ctx g stg := rfl

theorem filterSeq_cons (ctx : Ctx) (g g2 : Nat) (gs : List Nat) (stg : Storage) :
    filterSeq ctx (g :: g2 :: gs) stg =
      match filter_tickets ctx g stg with
      | .error e => .error e
      | .ok (s1, _) => filterSeq ctx (g2 :: gs) s1 := rfl

/-- A select sequence started on a selected state can never succeed. -/
theorem selectSeq_selected_not_ok (ctx : Ctx) (fresh : Rng) (g : Nat) (gs : List Nat)
    (s : Storage) (hsel : s.flags.were_winners_selected = true) (r : Storage × Bool) :
    selectSeq ctx fresh (g :: gs) s ≠ .ok r := by
  cases gs with
  | nil => exact select_selected_not_ok ctx fresh g s hsel r
  | cons g2 gs' =>
    rw [selectSeq_cons]
    rcases hres : select_winners ctx fresh g s with e | p
    · simp
    · exact absurd hres (select_selected_not_ok ctx fresh g s hsel p)

/-- A filter sequence started on a filtered state can never succeed. -/
theorem filterSeq_filtered_not_ok (ctx : Ctx) (g : Nat) (gs : List Nat)
    (s : Storage) (hfilt : s.flags.were_tickets_filtered = true) (r : Storage × Bool) :
    filterSeq ctx (g :: gs) s ≠ .ok r := by
  cases gs with
  | nil => exact filter_filtered_not_ok ctx g s hfilt r
  | cons g2 gs' =>
    rw [filterSeq_cons]
    rcases hres : filter_tickets ctx g s with e | p
    · simp
    · exact absurd hres (filter_filtered_not_ok ctx g s hfilt p)

theorem selectSeq_sound (ctx : Ctx) (fresh : Rng) :
    ∀ (gases : List Nat) (stg sf : Storage),
      selectSeq ctx fresh gases stg = .ok (sf, true) →
      select_winners ctx fresh gases.sum stg = .ok (sf, true) := by
  intro gases
  induction gases with
  | nil =>
    intro stg sf h
    rw [selectSeq_nil] at h
    exact absurd h (by simp)
  | cons g gs ih =>
    intro stg sf h
    cases gs with
    | nil =>
      rw [selectSeq_one] at h
      simpa using h
    | cons g2 gs' =>
      rw [selectSeq_cons] at h
      rcases hres : select_winners ctx fresh g stg with e | ⟨s1, done⟩ <;> rw [hres] at h
      · exact absurd h (by simp)
      · cases done with
        | true =>
          have hsel := select_completed_flag ctx fresh g stg s1 hres
          exact absurd h (selectSeq_selected_not_ok ctx fresh g2 gs' s1 hsel _)
        | false =>
          have hper : ctx.winnerSelectionPeriodOpen = true :=
            (select_interrupted ctx fresh g stg s1 hres).1
          have hres2 := select_resume ctx ctx fresh fresh g ((g2 :: gs').sum) stg s1
            hper hres
          rw [List.sum_cons, ← hres2]
          exact ih s1 sf h

theorem filterSeq_sound (ctx : Ctx) :
    ∀ (gases : List Nat) (stg sf : Storage),
      (∀ f r, stg.ongoingOp = .filterTicketsOp f r → 1 ≤ f) →
      filterSeq ctx gases stg = .ok (sf, true) →
      filter_tickets ctx gases.sum stg = .ok (sf, true) := by
  intro gases
  induction gases with
  | nil =>
    intro stg sf _ h
    rw [filterSeq_nil] at h
    exact absurd h (by simp)
  | cons g gs ih =>
    intro stg sf hwf h
    cases gs with
    | nil =>
      rw [filterSeq_one] at h
      simpa using h
    | cons g2 gs' =>
      rw [filterSeq_cons] at h
      rcases hres : filter_tickets ctx g stg with e | ⟨s1, done⟩ <;> rw [hres] at h
      · exact absurd h (by simp)
      · cases done with
        | true =>
          have hfilt := filter_completed_flag ctx g stg s1 hres
          exact absurd h (filterSeq_filtered_not_ok ctx g2 gs' s1 hfilt _)
        | false =>
          have hper : ctx.winnerSelectionPeriodOpen = true :=
            (filter_interrupted ctx g stg s1 hres).1
          have hwf1 := filter_interrupted_wf ctx g stg s1 hwf hres
          have hres2 := filter_resume ctx ctx g ((g2 :: gs').sum) stg s1 hper hwf hres
          rw [List.sum_cons, ← hres2]
          exact ih s1 sf hwf1 h

/-- C3: resumption equivalence.  For any fixed seed and any schedule of gas
budgets (pause points at unit-of-work boundaries), running select_winners
repeatedly, each interrupted invocation persisting its
{seed, seed_index, ticket_position} checkpoint and each resumption restoring
it, until some invocation completes, yields exactly the final storage of one
uninterrupted run with the total budget; likewise for filter_tickets with its
{first_ticket_id_in_batch, nr_removed} checkpoint (from any state whose
pending checkpoint cursor, if present, is at least FIRST_TICKET_ID, in
particular from a fresh start). -/
theorem c3_resumption_equivalence :
    (∀ (ctx : Ctx) (fresh : Rng) (gases : List Nat) (stg sf : Storage),
      selectSeq ctx fresh gases stg = .ok (sf, true) →
      select_winners ctx fresh gases.sum stg = .ok (sf, true)) ∧
    (∀ (ctx : Ctx) (gases : List Nat) (stg sf : Storage),
      (∀ f r, stg.ongoingOp = .filterTicketsOp f r → 1 ≤ f) →
      filterSeq ctx gases stg = .ok (sf, true) →
      filter_tickets ctx gases.sum stg = .ok (sf, true)) :=
  ⟨fun ctx fresh gases stg sf h => selectSeq_sound ctx fresh gases stg sf h,
    fun ctx gases stg sf hwf h => filterSeq_sound ctx gases stg sf hwf h⟩

/-- Concrete storage for the select half of the C3 witness: 3 filtered
tickets, 2 winners, selection interrupted after one unit. -/
def c3sstg : Storage :=
  { emptyStorage with
    lastTicketId := 3
    nrWinningTickets := 2
    flags := ⟨true, false, true⟩ }

/-- Final storage of the interrupted-and-resumed select run of the C3 witness. -/
def c3ssf : Storage :=
  match selectSeq openCtx ⟨fun _ => 0, 0⟩ [1, 1] c3sstg with
  | .ok (s, _) => s
  | .error _ => emptyStorage

/-- Concrete storage for the filter half of the C3 witness: two one-ticket
batches, both confirmed, filtering interrupted after one batch. -/
def c3fstg : Storage :=
  { emptyStorage with
    lastTicketId := 2
    ticketBatch := updF (updF emptyStorage.ticketBatch 1 (some ⟨5, 1⟩)) 2 (some ⟨6, 1⟩)
    ticketRangeForAddress := updF (updF emptyStorage.ticketRangeForAddress 5 (some ⟨1, 1⟩))
      6 (some ⟨2, 2⟩)
    nrConfirmedTickets := updF (updF emptyStorage.nrConfirmedTickets 5 1) 6 1
    nrWinningTickets := 2 }

/-- Final storage of the interrupted-and-resumed filter run of the C3 witness. -/
def c3fsf : Storage :=
  match filterSeq openCtx [1, 1] c3fstg with
  | .ok (s, _) => s
  | .error _ => emptyStorage

theorem c3_resumption_equivalence_witness :
    select_winners openCtx ⟨fun _ => 0, 0⟩ ([1, 1].sum) c3sstg = .ok (c3ssf, true) ∧
    filter_tickets openCtx ([1, 1].sum) c3fstg = .ok (c3fsf, true) :=
  ⟨c3_resumption_equivalence.1 openCtx ⟨fun _ => 0, 0⟩ [1, 1] c3sstg c3ssf rfl,
    c3_resumption_equivalence.2 openCtx [1, 1] c3fstg c3fsf
      (fun _ _ h => OngoingOperationType.noConfusion h) rfl⟩

/-- Abstract view of one created ticket batch: owning address and size. -/
structure BatchSpec where
  addr : Nat
  size : Nat
deriving DecidableEq

/-- The batch and range maps of a storage tile the ticket ids from `first`
onwards according to the batch list, with the captured total `L`: each batch
sits at its first id with a matching range entry, and one past the last
ticket there is no batch. -/
def Tiles (L : Nat) (stg : Storage) : Nat → List BatchSpec → Prop
  | first, [] => first = L + 1 ∧ stg.ticketBatch first = none
  | first, b :: bs =>
    stg.ticketBatch first = some ⟨b.addr, b.size⟩ ∧
    1 ≤ b.size ∧
    stg.ticketRangeForAddress b.addr = some ⟨first, first + b.size - 1⟩ ∧
    Tiles L stg (first + b.size) bs

/-- Total number of tickets removed by filtering the given batches. -/
def removedOf (conf : Nat → Nat) : List BatchSpec → Nat
  | [] => 0
  | b :: bs => (b.size - conf b.addr) + removedOf conf bs

/-- Description of the range map produced by a completed filtering run:
dropped addresses lose their entry, surviving addresses are re-tiled at the
compacted offset. -/
def rangesAfter (conf : Nat → Nat) (black : Nat → Bool) :
    List BatchSpec → Nat → Nat → (Nat → Option TicketRange) → Nat → Option TicketRange
  | [], _, _, r => r
  | b :: bs, first, rem, r =>
    if black b.addr ∨ conf b.addr = 0 then
      rangesAfter conf black bs (first + b.size) (rem + (b.size - conf b.addr))
        (updF r b.addr none)
    else
      rangesAfter conf black bs (first + b.size) (rem + (b.size - conf b.addr))
        (updF r b.addr (some ⟨first - rem, first - rem + conf b.addr - 1⟩))

theorem Tiles_sum (L : Nat) (stg : Storage) :
    ∀ (bs : List BatchSpec) (first : Nat), Tiles L stg first bs →
      first + (bs.map BatchSpec.size).sum = L + 1 := by
  intro bs
  induction bs with
  | nil =>
    intro first h
    obtain ⟨h1, -⟩ := h
    simpa using h1
  | cons b bs ih =>
    intro first h
    obtain ⟨-, -, -, ht⟩ := h
    have := ih (first + b.size) ht
    simp only [List.map_cons, List.sum_cons]
    omega

theorem Tiles_len_le_sum : ∀ (bs : List BatchSpec),
    (∀ b ∈ bs, 1 ≤ b.size) → bs.length ≤ (bs.map BatchSpec.size).sum := by
  intro bs
  induction bs with
  | nil => simp
  | cons b bs ih =>
    intro h
    have h1 := h b (List.mem_cons_self b bs)
    have h2 := ih (fun v hv => h v (List.mem_cons_of_mem b hv))
    simp only [List.length_cons, List.map_cons, List.sum_cons]
    omega

theorem Tiles_sizes (L : Nat) (stg : Storage) :
    ∀ (bs : List BatchSpec) (first : Nat), Tiles L stg first bs →
      ∀ b ∈ bs, 1 ≤ b.size := by
  intro bs
  induction bs with
  | nil => intro first _ b hb; exact absurd hb (by simp)
  | cons x xs ih =>
    intro first h b hb
    obtain ⟨-, hx, -, ht⟩ := h
    rcases List.mem_cons.mp hb with rfl | hb'
    · exact hx
    · exact ih (first + x.size) ht b hb'

theorem Tiles_addr_range (L : Nat) (stg : Storage) :
    ∀ (bs : List BatchSpec) (first : Nat), Tiles L stg first bs →
      ∀ b ∈ bs, ∃ f, first ≤ f ∧
        stg.ticketRangeForAddress b.addr = some ⟨f, f + b.size - 1⟩ := by
  intro bs
  induction bs with
  | nil => intro first _ b hb; exact absurd hb (by simp)
  | cons x xs ih =>
    intro first h b hb
    obtain ⟨-, hx, hr, ht⟩ := h
    rcases List.mem_cons.mp hb with rfl | hb'
    · exact ⟨first, le_refl _, hr⟩
    · obtain ⟨f, hf, hfr⟩ := ih (first + x.size) ht b hb'
      exact ⟨f, by omega, hfr⟩

/-- Tiling only depends on the batch entries from `first` on, the range
entries of the listed addresses, and the total. -/
theorem Tiles_congr (L : Nat) (stg stg2 : Storage) :
    ∀ (bs : List BatchSpec) (first : Nat),
      Tiles L stg first bs →
      stg2.lastTicketId = stg.lastTicketId →
      (∀ k, first ≤ k → stg2.ticketBatch k = stg.ticketBatch k) →
      (∀ b ∈ bs, stg2.ticketRangeForAddress b.addr = stg.ticketRangeForAddress b.addr) →
      Tiles L stg2 first bs := by
  intro bs
  induction bs with
  | nil =>
    intro first h _ hbatch _
    obtain ⟨h1, h2⟩ := h
    exact ⟨h1, by rw [hbatch first (le_refl _)]; exact h2⟩
  | cons b bs ih =>
    intro first h hlast hbatch hranges
    obtain ⟨h1, h2, h3, h4⟩ := h
    refine ⟨by rw [hbatch first (le_refl _)]; exact h1, h2, ?_, ?_⟩
    · rw [hranges b (List.mem_cons_self b bs)]
      exact h3
    · exact ih (first + b.size) h4 hlast
        (fun k hk => hbatch k (by omega))
        (fun v hv => hranges v (List.mem_cons_of_mem b hv))

/-- The filtered-range description only depends on the pointwise values of
the incoming range map. -/
theorem rangesAfter_congr (conf : Nat → Nat) (black : Nat → Bool) :
    ∀ (bs : List BatchSpec) (first rem : Nat) (r r2 : Nat → Option TicketRange),
      (∀ a, r2 a = r a) →
      ∀ a, rangesAfter conf black bs first rem r2 a =
        rangesAfter conf black bs first rem r a := by
  intro bs
  induction bs with
  | nil => intro first rem r r2 hr a; exact hr a
  | cons b bs ih =>
    intro first rem r r2 hr a
    simp only [rangesAfter]
    split
    · exact ih _ _ _ _ (fun x => by simp only [updF]; split <;> [rfl; exact hr x]) a
    · exact ih _ _ _ _ (fun x => by simp only [updF]; split <;> [rfl; exact hr x]) a

theorem sum_map_nodup_eq_finset_sum (f : Nat → Nat) :
    ∀ (l : List Nat), l.Nodup → (l.map f).sum = ∑ a ∈ l.toFinset, f a := by
  intro l
  induction l with
  | nil => simp
  | cons x xs ih =>
    intro h
    rw [List.nodup_cons] at h
    obtain ⟨hx, hxs⟩ := h
    rw [List.map_cons, List.sum_cons, List.toFinset_cons,
      Finset.sum_insert (by simpa using hx), ih hxs]

/-- A filtering run over tiled batches with enough gas completes, accumulates
exactly the per-batch removal counts, and produces the described range map. -/
theorem filterRun_char (L : Nat) :
    ∀ (bs : List BatchSpec) (first rem gas : Nat) (stg : Storage),
      Tiles L stg first bs →
      (bs.map BatchSpec.addr).Nodup →
      (∀ b ∈ bs, stg.nrConfirmedTickets b.addr ≤ b.size ∧
        (stg.blacklist b.addr = true → stg.nrConfirmedTickets b.addr = 0)) →
      rem + 1 ≤ first →
      bs.length + 1 ≤ gas →
      (bs = [] → stg.nrConfirmedTickets 0 = 0 ∧ stg.ticketRangeForAddress 0 = none) →
      (run_while_it_has_gas (filterUnit L) gas ⟨first, rem, stg⟩).2 = true ∧
      (run_while_it_has_gas (filterUnit L) gas ⟨first, rem, stg⟩).1.nr_removed =
        rem + removedOf stg.nrConfirmedTickets bs ∧
      (∀ a, (run_while_it_has_gas (filterUnit L) gas
          ⟨first, rem, stg⟩).1.stg.ticketRangeForAddress a =
        rangesAfter stg.nrConfirmedTickets stg.blacklist bs first rem
          stg.ticketRangeForAddress a) := by
  intro bs
  induction bs with
  | nil =>
    intro first rem gas stg htiles hnd hbounds hrem hgas hbase
    obtain ⟨hfirst, hbatchnone⟩ := htiles
    obtain ⟨hconf0, hrange0⟩ := hbase rfl
    subst hfirst
    rcases gas with - | g
    · omega
    rw [run_gas_succ]
    have hcond : (filterUnit L ⟨L + 1, rem, stg⟩).2 = true := by
      simp [filterUnit, hbatchnone, hconf0]
    rw [if_pos hcond]
    refine ⟨rfl, ?_, ?_⟩
    · simp [filterUnit, hbatchnone, hconf0, removedOf]
    · intro a
      simp only [rangesAfter]
      simp only [filterUnit, hbatchnone, Option.getD_none]
      rw [if_pos (by simp [hconf0])]
      simp only [updF]
      split
      · rename_i ha
        rw [ha, hrange0]
      · rfl
  | cons b bs' ih =>
    intro first rem gas stg htiles hnd hbounds hrem hgas hbase
    obtain ⟨hbatch, hsize, hrange, htail⟩ := htiles
    rw [List.map_cons, List.nodup_cons] at hnd
    obtain ⟨haddr_nin, hndtail⟩ := hnd
    obtain ⟨hcb, hblackb⟩ := hbounds b (List.mem_cons_self b bs')
    rcases gas with - | g
    · exact absurd hgas (by simp)
    have hunit1 : (filterUnit L ⟨first, rem, stg⟩).1.first_ticket_id_in_batch =
        first + b.size := by
      simp [filterUnit, hbatch]
    have hunit2 : (filterUnit L ⟨first, rem, stg⟩).1.nr_removed =
        rem + (b.size - stg.nrConfirmedTickets b.addr) := by
      simp [filterUnit, hbatch]
    have hunit3 : (filterUnit L ⟨first, rem, stg⟩).2 =
        decide (first + b.size = L + 1) := by
      simp [filterUnit, hbatch]
    obtain ⟨hpW, hpL, hpF, hpC, hpB, hpS, hpP, hpO⟩ :=
      filterUnit_preserves L ⟨first, rem, stg⟩
    have hpt : ∀ a, (filterUnit L ⟨first, rem, stg⟩).1.stg.ticketRangeForAddress a =
        updF stg.ticketRangeForAddress b.addr
          (if stg.blacklist b.addr = true ∨ stg.nrConfirmedTickets b.addr = 0 then none
            else some ⟨first - rem, first - rem + stg.nrConfirmedTickets b.addr - 1⟩) a := by
      intro a
      simp only [filterUnit, hbatch, Option.getD_some]
      split
      · rfl
      · rename_i hx
        split
        · rfl
        · rename_i hy
          simp only [updF]
          split
          · rename_i ha
            rw [ha, hrange]
            have hrem0 : rem = 0 := by omega
            have hceq : stg.nrConfirmedTickets b.addr = b.size := by omega
            rw [hrem0, hceq]
            simp
          · rfl
    have hbt : ∀ k, first + b.size ≤ k →
        (filterUnit L ⟨first, rem, stg⟩).1.stg.ticketBatch k = stg.ticketBatch k := by
      intro k hk
      simp only [filterUnit, hbatch, Option.getD_some]
      split
      · simp only [updF]
        rw [if_neg (by omega)]
      · split
        · simp only [updF]
          rw [if_neg (by omega), if_neg (by omega)]
        · rfl
    have hstate : (filterUnit L ⟨first, rem, stg⟩).1 =
        ⟨first + b.size, rem + (b.size - stg.nrConfirmedTickets b.addr),
          (filterUnit L ⟨first, rem, stg⟩).1.stg⟩ := by
      rw [← hunit1, ← hunit2]
    have hrangesAfter_eq : ∀ a,
        rangesAfter stg.nrConfirmedTickets stg.blacklist (b :: bs') first rem
          stg.ticketRangeForAddress a =
        rangesAfter stg.nrConfirmedTickets stg.blacklist bs' (first + b.size)
          (rem + (b.size - stg.nrConfirmedTickets b.addr))
          (updF stg.ticketRangeForAddress b.addr
            (if stg.blacklist b.addr = true ∨ stg.nrConfirmedTickets b.addr = 0 then none
              else some ⟨first - rem,
                first - rem + stg.nrConfirmedTickets b.addr - 1⟩)) a := by
      intro a
      simp only [rangesAfter]
      split
      · rfl
      · rfl
    cases bs' with
    | nil =>
      have hstop : (filterUnit L ⟨first, rem, stg⟩).2 = true := by
        rw [hunit3, htail.1]
        simp
      rw [run_gas_succ, if_pos hstop]
      refine ⟨rfl, ?_, ?_⟩
      · rw [hunit2]
        simp [removedOf]
      · intro a
        rw [hpt a, hrangesAfter_eq a]
        simp only [rangesAfter]
    | cons x xs =>
      have hxsize : 1 ≤ x.size := Tiles_sizes L stg (x :: xs) (first + b.size) htail x
        (List.mem_cons_self x xs)
      have hsum := Tiles_sum L stg (x :: xs) (first + b.size) htail
      have hfirstle : first + b.size ≤ L := by
        simp only [List.map_cons, List.sum_cons] at hsum
        omega
      have hstop : (filterUnit L ⟨first, rem, stg⟩).2 = false := by
        rw [hunit3]
        simp
        omega
      rw [run_gas_succ, hstop]
      simp only [Bool.false_eq_true, if_false]
      rw [hstate]
      have htiles1 : Tiles L (filterUnit L ⟨first, rem, stg⟩).1.stg (first + b.size)
          (x :: xs) := by
        refine Tiles_congr L stg _ (x :: xs) (first + b.size) htail hpL hbt ?_
        intro v hv
        rw [hpt v.addr]
        simp only [updF]
        rw [if_neg ?_]
        intro hva
        exact haddr_nin (hva ▸ (List.mem_map_of_mem BatchSpec.addr hv))
      have hbounds1 : ∀ v ∈ (x :: xs),
          (filterUnit L ⟨first, rem, stg⟩).1.stg.nrConfirmedTickets v.addr ≤ v.size ∧
          ((filterUnit L ⟨first, rem, stg⟩).1.stg.blacklist v.addr = true →
            (filterUnit L ⟨first, rem, stg⟩).1.stg.nrConfirmedTickets v.addr = 0) := by
        intro v hv
        rw [hpC, hpB]
        exact hbounds v (List.mem_cons_of_mem b hv)
      obtain ⟨k1, k2, k3⟩ := ih (first + b.size)
        (rem + (b.size - stg.nrConfirmedTickets b.addr)) g
        (filterUnit L ⟨first, rem, stg⟩).1.stg htiles1 hndtail hbounds1
        (by omega) (by simp at hgas ⊢; omega) (by intro hh; cases hh)
      refine ⟨k1, ?_, ?_⟩
      · rw [k2, hpC]
        simp [removedOf]
        omega
      · intro a
        rw [k3 a, hpC, hpB, hrangesAfter_eq a]
        exact rangesAfter_congr stg.nrConfirmedTickets stg.blacklist (x :: xs)
          (first + b.size) (rem + (b.size - stg.nrConfirmedTickets b.addr)) _ _ hpt a

theorem updF_same {α : Type} (f : Nat → α) (k : Nat) (v : α) : updF f k v k = v := by
  simp [updF]

theorem updF_other {α : Type} (f : Nat → α) (k : Nat) (v : α) (a : Nat) (h : a ≠ k) :
    updF f k v a = f a := by
  simp [updF, h]

/-- Addresses outside the batch list keep their range entry through the
filtering pass description. -/
theorem rangesAfter_untouched (conf : Nat → Nat) (black : Nat → Bool) :
    ∀ (bs : List BatchSpec) (first rem : Nat) (r : Nat → Option TicketRange) (a : Nat),
      a ∉ bs.map BatchSpec.addr →
      rangesAfter conf black bs first rem r a = r a := by
  intro bs
  induction bs with
  | nil => intro first rem r a _; rfl
  | cons b bs ih =>
    intro first rem r a ha
    rw [List.map_cons, List.mem_cons] at ha
    push_neg at ha
    simp only [rangesAfter]
    split
    · rw [ih _ _ _ a ha.2, updF_other _ _ _ a ha.1]
    · rw [ih _ _ _ a ha.2, updF_other _ _ _ a ha.1]

/-- A batch member's final range entry is either dropped or a nonempty interval
of length its confirmed count, starting at or above the shifted cursor. -/
theorem rangesAfter_mem (conf : Nat → Nat) (black : Nat → Bool) :
    ∀ (bs : List BatchSpec) (first rem : Nat) (r : Nat → Option TicketRange),
      (bs.map BatchSpec.addr).Nodup →
      (∀ b ∈ bs, conf b.addr ≤ b.size ∧ (black b.addr = true → conf b.addr = 0)) →
      rem ≤ first →
      ∀ b ∈ bs,
        rangesAfter conf black bs first rem r b.addr = none ∨
        ∃ f, first - rem ≤ f ∧ 1 ≤ conf b.addr ∧
          rangesAfter conf black bs first rem r b.addr =
            some ⟨f, f + conf b.addr - 1⟩ := by
  intro bs
  induction bs with
  | nil => intro _ _ _ _ _ _ b hb; exact absurd hb (by simp)
  | cons x xs ih =>
    intro first rem r hnd hbounds hrf b hb
    rw [List.map_cons, List.nodup_cons] at hnd
    obtain ⟨hxnin, hndx⟩ := hnd
    obtain ⟨hcx, hbx2⟩ := hbounds x (List.mem_cons_self x xs)
    rcases List.mem_cons.mp hb with hbx | hbtail
    · subst hbx
      simp only [rangesAfter]
      split
      · left
        rw [rangesAfter_untouched conf black xs _ _ _ _ hxnin, updF_same]
      · rename_i hx
        right
        refine ⟨first - rem, le_refl _, ?_, ?_⟩
        · have hne0 : conf b.addr ≠ 0 := fun h => hx (Or.inr h)
          omega
        · rw [rangesAfter_untouched conf black xs _ _ _ _ hxnin, updF_same]
    · simp only [rangesAfter]
      split
      · rename_i hx
        have hc0 : conf x.addr = 0 := by
          rcases hx with h | h
          · exact hbx2 h
          · exact h
        have hres := ih (first + x.size) (rem + (x.size - conf x.addr))
          (updF r x.addr none) hndx
          (fun v hv => hbounds v (List.mem_cons_of_mem x hv)) (by omega) b hbtail
        rcases hres with h | ⟨f, hf1, hf2, hf3⟩
        · exact Or.inl h
        · exact Or.inr ⟨f, by omega, hf2, hf3⟩
      · have hres := ih (first + x.size) (rem + (x.size - conf x.addr))
          (updF r x.addr (some ⟨first - rem, first - rem + conf x.addr - 1⟩)) hndx
          (fun v hv => hbounds v (List.mem_cons_of_mem x hv)) (by omega) b hbtail
        rcases hres with h | ⟨f, hf1, hf2, hf3⟩
        · exact Or.inl h
        · exact Or.inr ⟨f, by omega, hf2, hf3⟩

/-- Distinct batch members' surviving range entries never overlap. -/
theorem rangesAfter_disjoint (conf : Nat → Nat) (black : Nat → Bool) :
    ∀ (bs : List BatchSpec) (first rem : Nat) (r : Nat → Option TicketRange),
      (bs.map BatchSpec.addr).Nodup →
      (∀ b ∈ bs, conf b.addr ≤ b.size ∧ (black b.addr = true → conf b.addr = 0)) →
      rem ≤ first →
      ∀ b1 ∈ bs, ∀ b2 ∈ bs, b1.addr ≠ b2.addr →
        ∀ tr1 tr2,
          rangesAfter conf black bs first rem r b1.addr = some tr1 →
          rangesAfter conf black bs first rem r b2.addr = some tr2 →
          tr1.last_id < tr2.first_id ∨ tr2.last_id < tr1.first_id := by
  intro bs
  induction bs with
  | nil => intro _ _ _ _ _ _ b1 hb1; exact absurd hb1 (by simp)
  | cons x xs ih =>
    intro first rem r hnd hbounds hrf b1 hb1 b2 hb2 hne tr1 tr2 h1 h2
    rw [List.map_cons, List.nodup_cons] at hnd
    obtain ⟨hxnin, hndx⟩ := hnd
    obtain ⟨hcx, hbx2⟩ := hbounds x (List.mem_cons_self x xs)
    simp only [rangesAfter] at h1 h2
    rcases List.mem_cons.mp hb1 with hb1x | hb1t <;>
      rcases List.mem_cons.mp hb2 with hb2x | hb2t
    · exact absurd (hb1x ▸ hb2x ▸ rfl) hne
    · subst hb1x
      by_cases hx : black b1.addr = true ∨ conf b1.addr = 0
      · rw [if_pos hx, rangesAfter_untouched conf black xs _ _ _ _ hxnin, updF_same] at h1
        cases h1
      · rw [if_neg hx] at h1 h2
        rw [rangesAfter_untouched conf black xs _ _ _ _ hxnin, updF_same] at h1
        injection h1 with h1'
        have hconf1 : 1 ≤ conf b1.addr := by
          have hne0 : conf b1.addr ≠ 0 := fun h => hx (Or.inr h)
          omega
        have hm := rangesAfter_mem conf black xs (first + b1.size)
          (rem + (b1.size - conf b1.addr))
          (updF r b1.addr (some ⟨first - rem, first - rem + conf b1.addr - 1⟩)) hndx
          (fun v hv => hbounds v (List.mem_cons_of_mem b1 hv)) (by omega) b2 hb2t
        rcases hm with hm | ⟨f, hf1, hf2, hm⟩
        · rw [hm] at h2; cases h2
        · rw [hm] at h2
          injection h2 with h2'
          have e1 : tr1.last_id = first - rem + conf b1.addr - 1 := by rw [← h1']
          have e2 : tr2.first_id = f := by rw [← h2']
          left
          omega
    · subst hb2x
      by_cases hx : black b2.addr = true ∨ conf b2.addr = 0
      · rw [if_pos hx, rangesAfter_untouched conf black xs _ _ _ _ hxnin, updF_same] at h2
        cases h2
      · rw [if_neg hx] at h1 h2
        rw [rangesAfter_untouched conf black xs _ _ _ _ hxnin, updF_same] at h2
        injection h2 with h2'
        have hconf1 : 1 ≤ conf b2.addr := by
          have hne0 : conf b2.addr ≠ 0 := fun h => hx (Or.inr h)
          omega
        have hm := rangesAfter_mem conf black xs (first + b2.size)
          (rem + (b2.size - conf b2.addr))
          (updF r b2.addr (some ⟨first - rem, first - rem + conf b2.addr - 1⟩)) hndx
          (fun v hv => hbounds v (List.mem_cons_of_mem b2 hv)) (by omega) b1 hb1t
        rcases hm with hm | ⟨f, hf1, hf2, hm⟩
        · rw [hm] at h1; cases h1
        · rw [hm] at h1
          injection h1 with h1'
          have e1 : tr2.last_id = first - rem + conf b2.addr - 1 := by rw [← h2']
          have e2 : tr1.first_id = f := by rw [← h1']
          right
          omega
    · by_cases hx : black x.addr = true ∨ conf x.addr = 0
      · rw [if_pos hx] at h1 h2
        exact ih (first + x.size) (rem + (x.size - conf x.addr)) (updF r x.addr none)
          hndx (fun v hv => hbounds v (List.mem_cons_of_mem x hv)) (by omega)
          b1 hb1t b2 hb2t hne tr1 tr2 h1 h2
      · rw [if_neg hx] at h1 h2
        exact ih (first + x.size) (rem + (x.size - conf x.addr))
          (updF r x.addr (some ⟨first - rem, first - rem + conf x.addr - 1⟩))
          hndx (fun v hv => hbounds v (List.mem_cons_of_mem x hv)) (by omega)
          b1 hb1t b2 hb2t hne tr1 tr2 h1 h2

/-- The removed count never exceeds the total batch size. -/
theorem removedOf_le (conf : Nat → Nat) : ∀ (bs : List BatchSpec),
    removedOf conf bs ≤ (bs.map BatchSpec.size).sum := by
  intro bs
  induction bs with
  | nil => simp [removedOf]
  | cons b bs ih =>
    simp only [removedOf, List.map_cons, List.sum_cons]
    omega

/-- Total size minus the removed count is the total confirmed count. -/
theorem removedOf_sub (conf : Nat → Nat) : ∀ (bs : List BatchSpec),
    (∀ b ∈ bs, conf b.addr ≤ b.size) →
    (bs.map BatchSpec.size).sum - removedOf conf bs =
      (bs.map (fun b => conf b.addr)).sum := by
  intro bs
  induction bs with
  | nil => simp [removedOf]
  | cons b bs ih =>
    intro h
    have h1 := h b (List.mem_cons_self b bs)
    have h2 := ih (fun v hv => h v (List.mem_cons_of_mem b hv))
    have h3 := removedOf_le conf bs
    simp only [removedOf, List.map_cons, List.sum_cons] at h2 h3 ⊢
    omega

/-- Field accounting of a successful `confirm_tickets` call: only the caller's
confirmed count changes, bounded by the caller's total ticket count, and the
caller was not blacklisted. -/
theorem confirm_ok_fields (ctx : Ctx) (n : Nat) (stg s' : Storage)
    (h : confirm_tickets ctx n stg = .ok s') :
    s'.ticketBatch = stg.ticketBatch ∧
    s'.ticketRangeForAddress = stg.ticketRangeForAddress ∧
    s'.lastTicketId = stg.lastTicketId ∧
    s'.flags = stg.flags ∧
    s'.ongoingOp = stg.ongoingOp ∧
    s'.blacklist = stg.blacklist ∧
    s'.ticketPriceToken = stg.ticketPriceToken ∧
    s'.ticketPriceAmount = stg.ticketPriceAmount ∧
    s'.launchpadTokensDeposited = stg.launchpadTokensDeposited ∧
    (∀ a, a ≠ ctx.caller → s'.nrConfirmedTickets a = stg.nrConfirmedTickets a) ∧
    s'.nrConfirmedTickets ctx.caller = stg.nrConfirmedTickets ctx.caller + n ∧
    stg.nrConfirmedTickets ctx.caller + n ≤
      get_total_number_of_tickets_for_address stg ctx.caller ∧
    stg.blacklist ctx.caller = false := by
  unfold confirm_tickets at h
  by_cases h1 : ¬ctx.confirmationPeriodOpen
  · rw [if_pos h1] at h; cases h
  rw [if_neg h1] at h
  by_cases h2 : ¬stg.launchpadTokensDeposited = true
  · rw [if_pos h2] at h; cases h
  rw [if_neg h2] at h
  by_cases h3 : stg.blacklist ctx.caller = true
  · rw [if_pos h3] at h; cases h
  rw [if_neg h3] at h
  by_cases h4 : ¬(stg.nrConfirmedTickets ctx.caller + n ≤
      get_total_number_of_tickets_for_address stg ctx.caller)
  · rw [if_pos h4] at h; cases h
  rw [if_neg h4] at h
  by_cases h5 : ¬(ctx.paymentToken = stg.ticketPriceToken)
  · rw [if_pos h5] at h; cases h
  rw [if_neg h5] at h
  by_cases h6 : ¬(ctx.paymentAmount = stg.ticketPriceAmount * n)
  · rw [if_pos h6] at h; cases h
  rw [if_neg h6] at h
  injection h with h
  subst h
  push_neg at h4
  refine ⟨rfl, rfl, rfl, rfl, rfl, rfl, rfl, rfl, rfl, ?_, ?_, h4, by simp at h3 ⊢; exact h3⟩
  · intro a ha
    exact updF_other _ _ _ a ha
  · exact updF_same _ _ _

/-- Appending a fresh batch right after the current last ticket id extends a
tiling by one batch. -/
theorem Tiles_snoc (L : Nat) (stg stg2 : Storage) (b : BatchSpec) :
    ∀ (bs : List BatchSpec) (first : Nat),
      Tiles L stg first bs →
      (∀ k, k ≤ L → stg2.ticketBatch k = stg.ticketBatch k) →
      (∀ v ∈ bs, stg2.ticketRangeForAddress v.addr = stg.ticketRangeForAddress v.addr) →
      stg2.ticketBatch (L + 1) = some ⟨b.addr, b.size⟩ →
      stg2.ticketRangeForAddress b.addr = some ⟨L + 1, L + 1 + b.size - 1⟩ →
      1 ≤ b.size →
      stg2.ticketBatch (L + 1 + b.size) = none →
      Tiles (L + b.size) stg2 first (bs ++ [b]) := by
  intro bs
  induction bs with
  | nil =>
    intro first htiles hbat hrng hb1 hb2 hb3 hb4
    obtain ⟨hfirst, -⟩ := htiles
    subst hfirst
    refine ⟨hb1, hb3, ?_, ?_, ?_⟩
    · rw [hb2]
    · omega
    · exact hb4
  | cons x xs ih =>
    intro first htiles hbat hrng hb1 hb2 hb3 hb4
    obtain ⟨hx1, hx2, hx3, hxt⟩ := htiles
    have hsum := Tiles_sum L stg xs (first + x.size) hxt
    have hfle : first ≤ L := by omega
    refine ⟨?_, hx2, ?_, ?_⟩
    · rw [hbat first hfle]
      exact hx1
    · rw [hrng x (List.mem_cons_self x xs)]
      exact hx3
    · exact ih (first + x.size) hxt hbat
        (fun v hv => hrng v (List.mem_cons_of_mem x hv)) hb1 hb2 hb3 hb4

/-- The batch a creation pair (buyer, nr_tickets) asks for. -/
def toBatch (c : Nat × Nat) : BatchSpec := ⟨c.1, c.2⟩

/-- One `addTickets` pair processed as its own transaction: a failing call
reverts and leaves the state unchanged. -/
def addStep (stg : Storage) (c : Nat × Nat) : Storage :=
  match add_tickets_one openCtx c.1 c.2 stg with
  | .ok s' => s'
  | .error _ => stg

/-- A sequence of ticket creations through the `add_tickets` endpoint. -/
def applyCreations (creations : List (Nat × Nat)) (stg : Storage) : Storage :=
  creations.foldl addStep stg

/-- A setup action after creation: a confirmation attempt or a blacklisting. -/
inductive SetupEvent where
  | confirmEv (caller nr : Nat)
  | blacklistEv (users : List Nat)

/-- The call context of a confirmation attempt: the caller sends the exact
ticket price for the requested count. -/
def confirmCtx (caller nr : Nat) (stg : Storage) : Ctx :=
  { openCtx with
    caller := caller,
    paymentToken := stg.ticketPriceToken,
    paymentAmount := stg.ticketPriceAmount * nr }

/-- One setup action as its own transaction (failures revert). -/
def applyEvent (stg : Storage) : SetupEvent → Storage
  | .confirmEv caller nr =>
    match confirm_tickets (confirmCtx caller nr stg) nr stg with
    | .ok s' => s'
    | .error _ => stg
  | .blacklistEv users =>
    match add_users_to_blacklist openCtx users stg with
    | .ok s' => s'
    | .error _ => stg

/-- A sequence of confirmation and blacklisting actions. -/
def applyEvents (events : List SetupEvent) (stg : Storage) : Storage :=
  events.foldl applyEvent stg

/-- Storage right after deployment and token deposit, before any tickets. -/
def initStorage (priceT priceA nrW : Nat) : Storage :=
  { emptyStorage with
    ticketPriceToken := priceT,
    ticketPriceAmount := priceA,
    nrWinningTickets := nrW,
    launchpadTokensDeposited := true }

/-- Confirmed-count invariant over a batch list: counts are bounded by batch
sizes, blacklisted addresses have no confirmed tickets, and addresses without
a batch have none either. -/
def ConfInv (bs : List BatchSpec) (stg : Storage) : Prop :=
  (∀ b ∈ bs, stg.nrConfirmedTickets b.addr ≤ b.size) ∧
  (∀ a, stg.blacklist a = true → stg.nrConfirmedTickets a = 0) ∧
  (∀ a, a ∉ bs.map BatchSpec.addr → stg.nrConfirmedTickets a = 0)

/-- A creation sequence with positive sizes and pairwise-distinct fresh buyers
extends the tiling by one batch per creation and touches nothing else. -/
theorem applyCreations_spec :
    ∀ (creations : List (Nat × Nat)) (stg : Storage) (bs0 : List BatchSpec),
      Tiles stg.lastTicketId stg 1 bs0 →
      (∀ k, stg.lastTicketId + 1 ≤ k → stg.ticketBatch k = none) →
      (∀ a, a ∉ bs0.map BatchSpec.addr → stg.ticketRangeForAddress a = none) →
      (∀ c ∈ creations, 1 ≤ c.2) →
      (∀ c ∈ creations, c.1 ∉ bs0.map BatchSpec.addr) →
      (creations.map Prod.fst).Nodup →
      Tiles (applyCreations creations stg).lastTicketId (applyCreations creations stg) 1
        (bs0 ++ creations.map toBatch) ∧
      (∀ k, (applyCreations creations stg).lastTicketId + 1 ≤ k →
        (applyCreations creations stg).ticketBatch k = none) ∧
      (∀ a, a ∉ (bs0 ++ creations.map toBatch).map BatchSpec.addr →
        (applyCreations creations stg).ticketRangeForAddress a = none) ∧
      (applyCreations creations stg).nrConfirmedTickets = stg.nrConfirmedTickets ∧
      (applyCreations creations stg).blacklist = stg.blacklist ∧
      (applyCreations creations stg).flags = stg.flags ∧
      (applyCreations creations stg).ongoingOp = stg.ongoingOp ∧
      (applyCreations creations stg).ticketPriceToken = stg.ticketPriceToken ∧
      (applyCreations creations stg).ticketPriceAmount = stg.ticketPriceAmount ∧
      (applyCreations creations stg).launchpadTokensDeposited =
        stg.launchpadTokensDeposited := by
  intro creations
  induction creations with
  | nil =>
    intro stg bs0 h1 h2 h3 _ _ _
    refine ⟨?_, h2, ?_, rfl, rfl, rfl, rfl, rfl, rfl, rfl⟩
    · simpa using h1
    · simpa using h3
  | cons c cs ih =>
    intro stg bs0 h1 h2 h3 hpos hfresh hnd
    have hc2 : 1 ≤ c.2 := hpos c (List.mem_cons_self c cs)
    have hcf : c.1 ∉ bs0.map BatchSpec.addr := hfresh c (List.mem_cons_self c cs)
    rw [List.map_cons, List.nodup_cons] at hnd
    obtain ⟨hc1nin, hndcs⟩ := hnd
    have hrc : stg.ticketRangeForAddress c.1 = none := h3 c.1 hcf
    have hstep : addStep stg c =
        { stg with
          ticketRangeForAddress := updF stg.ticketRangeForAddress c.1
            (some ⟨stg.lastTicketId + 1, stg.lastTicketId + 1 + c.2 - 1⟩),
          ticketBatch := updF stg.ticketBatch (stg.lastTicketId + 1)
            (some ⟨c.1, c.2⟩),
          lastTicketId := stg.lastTicketId + 1 + c.2 - 1 } := by
      simp [addStep, add_tickets_one, openCtx, try_create_tickets, hrc]
    have hlast : (addStep stg c).lastTicketId = stg.lastTicketId + c.2 := by
      rw [hstep]
      show stg.lastTicketId + 1 + c.2 - 1 = stg.lastTicketId + c.2
      omega
    have htiles1 : Tiles (addStep stg c).lastTicketId (addStep stg c) 1
        (bs0 ++ [toBatch c]) := by
      rw [hlast]
      refine Tiles_snoc stg.lastTicketId stg (addStep stg c) (toBatch c) bs0 1 h1
        ?_ ?_ ?_ ?_ hc2 ?_
      · intro k hk
        rw [hstep]
        exact updF_other _ _ _ k (by omega)
      · intro v hv
        rw [hstep]
        refine updF_other _ _ _ v.addr ?_
        intro hva
        exact hcf (hva ▸ (List.mem_map_of_mem BatchSpec.addr hv))
      · rw [hstep]
        exact updF_same _ _ _
      · rw [hstep]
        exact updF_same _ _ _
      · rw [hstep]
        show updF stg.ticketBatch (stg.lastTicketId + 1) (some ⟨c.1, c.2⟩)
          (stg.lastTicketId + 1 + c.2) = none
        rw [updF_other _ _ _ _ (by omega)]
        exact h2 _ (by omega)
    have hhigh1 : ∀ k, (addStep stg c).lastTicketId + 1 ≤ k →
        (addStep stg c).ticketBatch k = none := by
      intro k hk
      rw [hlast] at hk
      rw [hstep]
      show updF stg.ticketBatch (stg.lastTicketId + 1) (some ⟨c.1, c.2⟩) k = none
      rw [updF_other _ _ _ _ (by omega)]
      exact h2 _ (by omega)
    have hdom1 : ∀ a, a ∉ (bs0 ++ [toBatch c]).map BatchSpec.addr →
        (addStep stg c).ticketRangeForAddress a = none := by
      intro a ha
      rw [List.map_append, List.mem_append] at ha
      push_neg at ha
      rw [hstep]
      show updF stg.ticketRangeForAddress c.1 _ a = none
      rw [updF_other _ _ _ a (by simpa [toBatch] using ha.2)]
      exact h3 a ha.1
    have hfresh1 : ∀ v ∈ cs, v.1 ∉ (bs0 ++ [toBatch c]).map BatchSpec.addr := by
      intro v hv
      rw [List.map_append, List.mem_append]
      push_neg
      refine ⟨hfresh v (List.mem_cons_of_mem c hv), ?_⟩
      simp only [List.map_cons, List.map_nil, List.mem_singleton, toBatch]
      intro hva
      exact hc1nin (hva ▸ (List.mem_map_of_mem Prod.fst hv))
    have := ih (addStep stg c) (bs0 ++ [toBatch c]) htiles1 hhigh1 hdom1
      (fun v hv => hpos v (List.mem_cons_of_mem c hv)) hfresh1 hndcs
    have happ : (bs0 ++ [toBatch c]) ++ cs.map toBatch =
        bs0 ++ (c :: cs).map toBatch := by
      rw [List.map_cons, List.append_assoc]
      rfl
    have hunfold : applyCreations (c :: cs) stg = applyCreations cs (addStep stg c) := rfl
    rw [happ] at this
    rw [hunfold]
    refine ⟨this.1, this.2.1, this.2.2.1, ?_, ?_, ?_, ?_, ?_, ?_, ?_⟩
    · rw [this.2.2.2.1, hstep]
    · rw [this.2.2.2.2.1, hstep]
    · rw [this.2.2.2.2.2.1, hstep]
    · rw [this.2.2.2.2.2.2.1, hstep]
    · rw [this.2.2.2.2.2.2.2.1, hstep]
    · rw [this.2.2.2.2.2.2.2.2.1, hstep]
    · rw [this.2.2.2.2.2.2.2.2.2, hstep]

/-- The blacklist loop never touches batches, ranges, the last ticket id, the
flags or the checkpoint. -/
theorem foldBlacklist_fields : ∀ (users : List Nat) (stg : Storage),
    (users.foldl blacklistOne stg).ticketBatch = stg.ticketBatch ∧
    (users.foldl blacklistOne stg).ticketRangeForAddress = stg.ticketRangeForAddress ∧
    (users.foldl blacklistOne stg).lastTicketId = stg.lastTicketId ∧
    (users.foldl blacklistOne stg).flags = stg.flags ∧
    (users.foldl blacklistOne stg).ongoingOp = stg.ongoingOp ∧
    (users.foldl blacklistOne stg).ticketPriceToken = stg.ticketPriceToken ∧
    (users.foldl blacklistOne stg).ticketPriceAmount = stg.ticketPriceAmount ∧
    (users.foldl blacklistOne stg).launchpadTokensDeposited =
      stg.launchpadTokensDeposited := by
  intro users
  induction users with
  | nil => intro stg; exact ⟨rfl, rfl, rfl, rfl, rfl, rfl, rfl, rfl⟩
  | cons u rest ih =>
    intro stg
    obtain ⟨-, -, -, p4, p5, p6, p7, -, p9, p10, -, p12, -⟩ := blacklistOne_spec stg u
    obtain ⟨q1, q2, q3, q4, q5, q6, q7, q8⟩ := ih (blacklistOne stg u)
    have hdep : (blacklistOne stg u).launchpadTokensDeposited =
        stg.launchpadTokensDeposited := by
      by_cases h : 0 < stg.nrConfirmedTickets u
      · simp [blacklistOne, refund_ticket_payment, h, Nat.pos_iff_ne_zero.mp h]
      · simp [blacklistOne, refund_ticket_payment, h]
    refine ⟨?_, ?_, ?_, ?_, ?_, ?_, ?_, ?_⟩ <;>
      simp only [List.foldl_cons] <;>
      first
        | rw [q1, p7]
        | rw [q2, p6]
        | rw [q3, p9]
        | rw [q4, p10]
        | rw [q5, p12]
        | rw [q6, p4]
        | rw [q7, p5]
        | rw [q8, hdep]

/-- One blacklisting step preserves the confirmed-count invariant. -/
theorem blacklistOne_confInv (bs : List BatchSpec) (stg : Storage) (u : Nat)
    (h : ConfInv bs stg) : ConfInv bs (blacklistOne stg u) := by
  obtain ⟨h1, h2, h3⟩ := h
  obtain ⟨pb, pc, -⟩ := blacklistOne_spec stg u
  refine ⟨?_, ?_, ?_⟩
  · intro b hb
    rw [pc]
    by_cases hba : b.addr = u
    · rw [hba, updF_same]
      omega
    · rw [updF_other _ _ _ _ hba]
      exact h1 b hb
  · intro a ha
    rw [pc]
    by_cases hau : a = u
    · rw [hau, updF_same]
    · rw [updF_other _ _ _ _ hau]
      rw [pb, updF_other _ _ _ _ hau] at ha
      exact h2 a ha
  · intro a ha
    rw [pc]
    by_cases hau : a = u
    · rw [hau, updF_same]
    · rw [updF_other _ _ _ _ hau]
      exact h3 a ha

/-- The blacklist loop preserves the confirmed-count invariant. -/
theorem foldBlacklist_confInv (bs : List BatchSpec) : ∀ (users : List Nat) (stg : Storage),
    ConfInv bs stg → ConfInv bs (users.foldl blacklistOne stg) := by
  intro users
  induction users with
  | nil => intro stg h; exact h
  | cons u rest ih =>
    intro stg h
    exact ih (blacklistOne stg u) (blacklistOne_confInv bs stg u h)

/-- Setup actions after creation leave batches, ranges, the last ticket id,
the flags and the checkpoint unchanged and preserve the confirmed-count
invariant. -/
theorem applyEvents_spec (bs : List BatchSpec) :
    ∀ (events : List SetupEvent) (stg : Storage),
      (∀ b ∈ bs, 1 ≤ b.size) →
      (∀ b ∈ bs, ∃ f, stg.ticketRangeForAddress b.addr = some ⟨f, f + b.size - 1⟩) →
      (∀ a, a ∉ bs.map BatchSpec.addr → stg.ticketRangeForAddress a = none) →
      ConfInv bs stg →
      (applyEvents events stg).ticketBatch = stg.ticketBatch ∧
      (applyEvents events stg).ticketRangeForAddress = stg.ticketRangeForAddress ∧
      (applyEvents events stg).lastTicketId = stg.lastTicketId ∧
      (applyEvents events stg).flags = stg.flags ∧
      (applyEvents events stg).ongoingOp = stg.ongoingOp ∧
      ConfInv bs (applyEvents events stg) := by
  intro events
  induction events with
  | nil => intro stg _ _ _ hc; exact ⟨rfl, rfl, rfl, rfl, rfl, hc⟩
  | cons e es ih =>
    intro stg hsizes hrng hdom hc
    have hstep : (applyEvent stg e).ticketBatch = stg.ticketBatch ∧
        (applyEvent stg e).ticketRangeForAddress = stg.ticketRangeForAddress ∧
        (applyEvent stg e).lastTicketId = stg.lastTicketId ∧
        (applyEvent stg e).flags = stg.flags ∧
        (applyEvent stg e).ongoingOp = stg.ongoingOp ∧
        ConfInv bs (applyEvent stg e) := by
      cases e with
      | confirmEv caller nr =>
        simp only [applyEvent]
        cases hcall : confirm_tickets (confirmCtx caller nr stg) nr stg with
        | error e => exact ⟨rfl, rfl, rfl, rfl, rfl, hc⟩
        | ok s' =>
          obtain ⟨f1, f2, f3, f4, f5, fblack, -, -, -, foth, fcal, fbnd, fblk⟩ :=
            confirm_ok_fields (confirmCtx caller nr stg) nr stg s' hcall
          have hcaller : (confirmCtx caller nr stg).caller = caller := rfl
          rw [hcaller] at foth fcal fbnd fblk
          obtain ⟨c1, c2, c3⟩ := hc
          refine ⟨f1, f2, f3, f4, f5, ?_, ?_, ?_⟩
          · intro b hb
            show s'.nrConfirmedTickets b.addr ≤ b.size
            by_cases hba : b.addr = caller
            · rw [hba, fcal]
              obtain ⟨f, hf⟩ := hrng b hb
              rw [hba] at hf
              have hb1 : 1 ≤ b.size := hsizes b hb
              rw [show get_total_number_of_tickets_for_address stg caller =
                  b.size from by
                simp only [get_total_number_of_tickets_for_address, hf]
                omega] at fbnd
              exact fbnd
            · rw [foth b.addr hba]
              exact c1 b hb
          · intro a ha
            have ha' : s'.blacklist a = true := ha
            rw [fblack] at ha'
            show s'.nrConfirmedTickets a = 0
            by_cases hau : a = caller
            · rw [hau] at ha'
              rw [ha'] at fblk
              cases fblk
            · rw [foth a hau]
              exact c2 a ha'
          · intro a ha
            show s'.nrConfirmedTickets a = 0
            by_cases hau : a = caller
            · subst hau
              have h0 : stg.nrConfirmedTickets a = 0 := c3 a ha
              have htot : get_total_number_of_tickets_for_address stg a = 0 := by
                simp only [get_total_number_of_tickets_for_address, hdom a ha]
              rw [fcal, h0]
              omega
            · rw [foth a hau]
              exact c3 a ha
      | blacklistEv users =>
        simp only [applyEvent]
        have hok : add_users_to_blacklist openCtx users stg =
            .ok (users.foldl blacklistOne stg) := by
          simp [add_users_to_blacklist, openCtx]
        rw [hok]
        obtain ⟨g1, g2, g3, g4, g5, -, -, -⟩ := foldBlacklist_fields users stg
        exact ⟨g1, g2, g3, g4, g5, foldBlacklist_confInv bs users stg hc⟩
    obtain ⟨s1, s2, s3, s4, s5, s6⟩ := hstep
    have hrng' : ∀ b ∈ bs, ∃ f,
        (applyEvent stg e).ticketRangeForAddress b.addr = some ⟨f, f + b.size - 1⟩ := by
      intro b hb
      rw [s2]
      exact hrng b hb
    have hdom' : ∀ a, a ∉ bs.map BatchSpec.addr →
        (applyEvent stg e).ticketRangeForAddress a = none := by
      intro a ha
      rw [s2]
      exact hdom a ha
    obtain ⟨t1, t2, t3, t4, t5, t6⟩ := ih (applyEvent stg e) hsizes hrng' hdom' s6
    have hunf : applyEvents (e :: es) stg = applyEvents es (applyEvent stg e) := rfl
    rw [hunf]
    exact ⟨by rw [t1, s1], by rw [t2, s2], by rw [t3, s3], by rw [t4, s4],
      by rw [t5, s5], t6⟩

theorem filteredRecord_fields (base : Storage) (L W : Nat) (fl : Flags) :
    ({ base with
        lastTicketId := L
        nrWinningTickets := W
        flags := fl
        ongoingOp := OngoingOperationType.noOp } : Storage).lastTicketId = L ∧
    ({ base with
        lastTicketId := L
        nrWinningTickets := W
        flags := fl
        ongoingOp := OngoingOperationType.noOp } : Storage).nrConfirmedTickets =
      base.nrConfirmedTickets ∧
    ({ base with
        lastTicketId := L
        nrWinningTickets := W
        flags := fl
        ongoingOp := OngoingOperationType.noOp } : Storage).ticketRangeForAddress =
      base.ticketRangeForAddress :=
  ⟨rfl, rfl, rfl⟩

theorem toBatch_addrs (creations : List (Nat × Nat)) :
    (creations.map toBatch).map BatchSpec.addr = creations.map Prod.fst := by
  rw [List.map_map]
  rfl

/-- A completed `filter_tickets` run over a well-formed tiled setup: the new
last ticket id is the total confirmed count, every surviving range has the
length of its owner's confirmed count, and surviving ranges never overlap. -/
theorem filter_complete_spec (stg : Storage) (bs : List BatchSpec)
    (hT : Tiles stg.lastTicketId stg 1 bs)
    (hnd : (bs.map BatchSpec.addr).Nodup)
    (hBounds : ∀ b ∈ bs, stg.nrConfirmedTickets b.addr ≤ b.size ∧
      (stg.blacklist b.addr = true → stg.nrConfirmedTickets b.addr = 0))
    (hdom : ∀ a, a ∉ bs.map BatchSpec.addr → stg.ticketRangeForAddress a = none)
    (hconf0 : ∀ a, a ∉ bs.map BatchSpec.addr → stg.nrConfirmedTickets a = 0)
    (hsizes : ∀ b ∈ bs, 1 ≤ b.size)
    (hfilt : stg.flags.were_tickets_filtered = false)
    (hload : load_filter_tickets_operation stg.ongoingOp = .ok (1, 0)) :
    ∃ sf, filter_tickets openCtx (stg.lastTicketId + 1) stg = .ok (sf, true) ∧
      sf.lastTicketId = ∑ a ∈ (bs.map BatchSpec.addr).toFinset, sf.nrConfirmedTickets a ∧
      (∀ a, a ∉ (bs.map BatchSpec.addr).toFinset → sf.nrConfirmedTickets a = 0) ∧
      (∀ a tr, sf.ticketRangeForAddress a = some tr →
        tr.last_id - tr.first_id + 1 = sf.nrConfirmedTickets a) ∧
      (∀ a1 a2 tr1 tr2, a1 ≠ a2 →
        sf.ticketRangeForAddress a1 = some tr1 →
        sf.ticketRangeForAddress a2 = some tr2 →
        tr1.last_id < tr2.first_id ∨ tr2.last_id < tr1.first_id) := by
  obtain ⟨r2, rrem, rranges⟩ := filterRun_char stg.lastTicketId bs 1 0
    (stg.lastTicketId + 1) stg hT hnd hBounds (by omega)
    (by
      have h1 := Tiles_sum stg.lastTicketId stg bs 1 hT
      have h2 := Tiles_len_le_sum bs hsizes
      omega)
    (fun h0 => ⟨hconf0 0 (by rw [h0]; simp), hdom 0 (by rw [h0]; simp)⟩)
  rw [filter_tickets_eq openCtx (stg.lastTicketId + 1) stg 1 0 rfl hfilt hload,
    if_pos r2]
  have pconf' : (run_while_it_has_gas (filterUnit stg.lastTicketId)
      (stg.lastTicketId + 1) ⟨1, 0, stg⟩).1.stg.nrConfirmedTickets =
      stg.nrConfirmedTickets :=
    (runFilter_preserves stg.lastTicketId (stg.lastTicketId + 1) ⟨1, 0, stg⟩).2.2.2.1
  refine ⟨_, rfl, ?_, ?_, ?_, ?_⟩
  · rw [(filteredRecord_fields _ _ _ _).1, (filteredRecord_fields _ _ _ _).2.1,
      pconf', rrem]
    have h1 := Tiles_sum stg.lastTicketId stg bs 1 hT
    have h2 := removedOf_sub stg.nrConfirmedTickets bs (fun b hb => (hBounds b hb).1)
    have h3 := removedOf_le stg.nrConfirmedTickets bs
    have h4 : (bs.map (fun b => stg.nrConfirmedTickets b.addr)).sum =
        ∑ a ∈ (bs.map BatchSpec.addr).toFinset, stg.nrConfirmedTickets a := by
      rw [← sum_map_nodup_eq_finset_sum stg.nrConfirmedTickets (bs.map BatchSpec.addr) hnd,
        List.map_map]
      rfl
    omega
  · intro a ha
    rw [(filteredRecord_fields _ _ _ _).2.1, pconf']
    exact hconf0 a (fun h => ha (List.mem_toFinset.mpr h))
  · intro a tr htr
    rw [(filteredRecord_fields _ _ _ _).2.2] at htr
    rw [(filteredRecord_fields _ _ _ _).2.1, pconf']
    rw [rranges a] at htr
    by_cases hmem : a ∈ bs.map BatchSpec.addr
    · obtain ⟨b, hb, rfl⟩ := List.mem_map.mp hmem
      rcases rangesAfter_mem stg.nrConfirmedTickets stg.blacklist bs 1 0
          stg.ticketRangeForAddress hnd hBounds (by omega) b hb with
        hnone | ⟨f, hf1, hf2, hf3⟩
      · rw [hnone] at htr
        cases htr
      · rw [hf3] at htr
        injection htr with htr'
        have ef : tr.first_id = f := by rw [← htr']
        have el : tr.last_id = f + stg.nrConfirmedTickets b.addr - 1 := by rw [← htr']
        omega
    · rw [rangesAfter_untouched _ _ bs _ _ _ _ hmem, hdom a hmem] at htr
      cases htr
  · intro a1 a2 tr1 tr2 hne h1 h2
    rw [(filteredRecord_fields _ _ _ _).2.2] at h1 h2
    rw [rranges a1] at h1
    rw [rranges a2] at h2
    by_cases hm1 : a1 ∈ bs.map BatchSpec.addr
    · by_cases hm2 : a2 ∈ bs.map BatchSpec.addr
      · obtain ⟨b1, hb1, rfl⟩ := List.mem_map.mp hm1
        obtain ⟨b2, hb2, rfl⟩ := List.mem_map.mp hm2
        exact rangesAfter_disjoint stg.nrConfirmedTickets stg.blacklist bs 1 0
          stg.ticketRangeForAddress hnd hBounds (by omega) b1 hb1 b2 hb2 hne
          tr1 tr2 h1 h2
      · rw [rangesAfter_untouched _ _ bs _ _ _ _ hm2, hdom a2 hm2] at h2
        cases h2
    · rw [rangesAfter_untouched _ _ bs _ _ _ _ hm1, hdom a1 hm1] at h1
      cases h1

/-- C4: for every sequence of ticket creations followed by partial
confirmations and possible blacklistings, a completed `filter_tickets` run
leaves a last ticket id equal to the sum of all addresses' confirmed counts
(addresses outside the creation list having none), every remaining range with
the length of its owner's confirmed count, and no two ranges overlapping. -/
theorem c4_filter_accounting (pT pA nrW : Nat) (creations : List (Nat × Nat))
    (events : List SetupEvent)
    (hnd : (creations.map Prod.fst).Nodup)
    (hpos : ∀ c ∈ creations, 1 ≤ c.2) :
    ∃ sf, filter_tickets openCtx
        ((applyEvents events (applyCreations creations
          (initStorage pT pA nrW))).lastTicketId + 1)
        (applyEvents events (applyCreations creations (initStorage pT pA nrW))) =
        .ok (sf, true) ∧
      sf.lastTicketId =
        ∑ a ∈ (creations.map Prod.fst).toFinset, sf.nrConfirmedTickets a ∧
      (∀ a, a ∉ (creations.map Prod.fst).toFinset → sf.nrConfirmedTickets a = 0) ∧
      (∀ a tr, sf.ticketRangeForAddress a = some tr →
        tr.last_id - tr.first_id + 1 = sf.nrConfirmedTickets a) ∧
      (∀ a1 a2 tr1 tr2, a1 ≠ a2 →
        sf.ticketRangeForAddress a1 = some tr1 →
        sf.ticketRangeForAddress a2 = some tr2 →
        tr1.last_id < tr2.first_id ∨ tr2.last_id < tr1.first_id) := by
  obtain ⟨hT, hHigh, hDom, hConf, hBlack, hFlags, hOp, hPT, hPA, hDep⟩ :=
    applyCreations_spec creations (initStorage pT pA nrW) [] ⟨rfl, rfl⟩
      (fun k _ => rfl) (fun a _ => rfl) hpos (fun c _ => by simp) hnd
  rw [List.nil_append] at hT hDom
  have hndbs : ((creations.map toBatch).map BatchSpec.addr).Nodup := by
    rw [toBatch_addrs]
    exact hnd
  have hsizes : ∀ b ∈ creations.map toBatch, 1 ≤ b.size := by
    intro b hb
    obtain ⟨c, hc, rfl⟩ := List.mem_map.mp hb
    exact hpos c hc
  have hrng : ∀ b ∈ creations.map toBatch, ∃ f,
      (applyCreations creations (initStorage pT pA nrW)).ticketRangeForAddress
        b.addr = some ⟨f, f + b.size - 1⟩ := by
    intro b hb
    obtain ⟨f, -, hf⟩ := Tiles_addr_range _ _ (creations.map toBatch) 1 hT b hb
    exact ⟨f, hf⟩
  have hCI : ConfInv (creations.map toBatch)
      (applyCreations creations (initStorage pT pA nrW)) := by
    refine ⟨fun b _ => ?_, fun a _ => ?_, fun a _ => ?_⟩
    · rw [hConf]
      exact Nat.zero_le _
    · rw [hConf]
      rfl
    · rw [hConf]
      rfl
  obtain ⟨e1, e2, e3, e4, e5, e6⟩ :=
    applyEvents_spec (creations.map toBatch) events
      (applyCreations creations (initStorage pT pA nrW)) hsizes hrng hDom hCI
  obtain ⟨i1, i2, i3⟩ := e6
  have hTS : Tiles (applyEvents events (applyCreations creations
      (initStorage pT pA nrW))).lastTicketId
      (applyEvents events (applyCreations creations (initStorage pT pA nrW))) 1
      (creations.map toBatch) := by
    rw [e3]
    exact Tiles_congr _ _ _ (creations.map toBatch) 1 hT e3
      (fun k _ => by rw [e1]) (fun b _ => by rw [e2])
  have hBounds : ∀ b ∈ creations.map toBatch,
      (applyEvents events (applyCreations creations
        (initStorage pT pA nrW))).nrConfirmedTickets b.addr ≤ b.size ∧
      ((applyEvents events (applyCreations creations
          (initStorage pT pA nrW))).blacklist b.addr = true →
        (applyEvents events (applyCreations creations
          (initStorage pT pA nrW))).nrConfirmedTickets b.addr = 0) :=
    fun b hb => ⟨i1 b hb, fun h => i2 b.addr h⟩
  have hdomS : ∀ a, a ∉ (creations.map toBatch).map BatchSpec.addr →
      (applyEvents events (applyCreations creations
        (initStorage pT pA nrW))).ticketRangeForAddress a = none := by
    intro a ha
    rw [e2]
    exact hDom a ha
  have hfiltS : (applyEvents events (applyCreations creations
      (initStorage pT pA nrW))).flags.were_tickets_filtered = false := by
    rw [e4, hFlags]
    rfl
  have hloadS : load_filter_tickets_operation (applyEvents events
      (applyCreations creations (initStorage pT pA nrW))).ongoingOp = .ok (1, 0) := by
    rw [e5, hOp]
    rfl
  obtain ⟨sf, hok, hs1, hs2, hs3, hs4⟩ :=
    filter_complete_spec (applyEvents events (applyCreations creations
      (initStorage pT pA nrW))) (creations.map toBatch) hTS hndbs hBounds hdomS i3
      hsizes hfiltS hloadS
  rw [toBatch_addrs] at hs1 hs2
  exact ⟨sf, hok, hs1, hs2, hs3, hs4⟩

/-- Witness for C4 at a concrete setup: two creations, one partial
confirmation and one blacklisting. -/
theorem c4_filter_accounting_witness :
    ((([(1, 2), (2, 1)] : List (Nat × Nat)).map Prod.fst).Nodup ∧
      (∀ c ∈ ([(1, 2), (2, 1)] : List (Nat × Nat)), 1 ≤ c.2)) ∧
    ∃ sf, filter_tickets openCtx
        ((applyEvents [SetupEvent.confirmEv 1 1, SetupEvent.blacklistEv [2]]
          (applyCreations [(1, 2), (2, 1)] (initStorage 10 5 3))).lastTicketId + 1)
        (applyEvents [SetupEvent.confirmEv 1 1, SetupEvent.blacklistEv [2]]
          (applyCreations [(1, 2), (2, 1)] (initStorage 10 5 3))) = .ok (sf, true) ∧
      sf.lastTicketId =
        ∑ a ∈ ((([(1, 2), (2, 1)] : List (Nat × Nat)).map Prod.fst).toFinset),
          sf.nrConfirmedTickets a ∧
      (∀ a, a ∉ (([(1, 2), (2, 1)] : List (Nat × Nat)).map Prod.fst).toFinset →
        sf.nrConfirmedTickets a = 0) ∧
      (∀ a tr, sf.ticketRangeForAddress a = some tr →
        tr.last_id - tr.first_id + 1 = sf.nrConfirmedTickets a) ∧
      (∀ a1 a2 tr1 tr2, a1 ≠ a2 →
        sf.ticketRangeForAddress a1 = some tr1 →
        sf.ticketRangeForAddress a2 = some tr2 →
        tr1.last_id < tr2.first_id ∨ tr2.last_id < tr1.first_id) :=
  ⟨⟨by decide, by decide⟩,
    c4_filter_accounting 10 5 3 [(1, 2), (2, 1)]
      [SetupEvent.confirmEv 1 1, SetupEvent.blacklistEv [2]]
      (by decide) (by decide)⟩

end Launchpad
